import Mathlib

/-!
Verification of the golang-taxi-fare repository core: a shallow embedding of
the fare calculator (`farecalculator/calculator.go`), the sequence validator
(`datavalidator/validator.go`), the line parser (`inputparser`), and the
exit-code mapping (`errorhandler`), together with proofs of the specified
properties.

Decimal arithmetic follows the `github.com/shopspring/decimal` library used
throughout the repository: a decimal is an arbitrary-precision integer
coefficient together with an integer exponent, denoting `value * 10 ^ exp`.
Division (`Div`) rounds the quotient to `DivisionPrecision = 16` fractional
digits, half away from zero; `Ceil` is exact.  String payloads of errors
(human-readable messages) are not modelled; error kind, record index and
field are.
-/

namespace TaxiFare

/-- Embedding of `decimal.Decimal` from `github.com/shopspring/decimal`:
the number `value * 10 ^ exp`. -/
structure Decimal where
  value : Int
  exp : Int
deriving DecidableEq

namespace Decimal

/-- `decimal.Zero`, defined in the library as `New(0, 1)`. -/
def zero : Decimal := ⟨0, 1⟩

/-- The Go zero value of the `Decimal` struct (`nil` coefficient read as 0,
exponent 0); this is what an uninitialised `var x decimal.Decimal` holds. -/
def uninit : Decimal := ⟨0, 0⟩

/-- `decimal.NewFromInt`. -/
def newFromInt (n : Int) : Decimal := ⟨n, 0⟩

/-- `RescalePair`: bring both operands to the smaller of the two exponents
(multiplying the coefficient of the other by the matching power of ten).
Returns both coefficients and the common exponent. -/
def rescalePair (d1 d2 : Decimal) : Int × Int × Int :=
  if d2.exp < d1.exp then
    (d1.value * 10 ^ (d1.exp - d2.exp).toNat, d2.value, d2.exp)
  else
    (d1.value, d2.value * 10 ^ (d2.exp - d1.exp).toNat, d1.exp)

/-- `Decimal.Add`. -/
def add (d1 d2 : Decimal) : Decimal :=
  let p := rescalePair d1 d2
  ⟨p.1 + p.2.1, p.2.2⟩

/-- `Decimal.Sub`. -/
def sub (d1 d2 : Decimal) : Decimal :=
  let p := rescalePair d1 d2
  ⟨p.1 - p.2.1, p.2.2⟩

/-- `Decimal.Mul`. -/
def mul (d1 d2 : Decimal) : Decimal := ⟨d1.value * d2.value, d1.exp + d2.exp⟩

/-- `Decimal.Abs`. -/
def dabs (d : Decimal) : Decimal := ⟨|d.value|, d.exp⟩

/-- `Decimal.Cmp` (−1, 0 or 1). -/
def cmp (d1 d2 : Decimal) : Int :=
  let p := rescalePair d1 d2
  Int.sign (p.1 - p.2.1)

/-- `Decimal.IsNegative` (sign of the coefficient). -/
def isNegative (d : Decimal) : Bool := decide (d.value < 0)

/-- `Decimal.IsZero`. -/
def isZero (d : Decimal) : Bool := decide (d.value = 0)

/-- `Decimal.LessThan`. -/
def lessThan (d1 d2 : Decimal) : Bool := decide (d1.cmp d2 < 0)

/-- `Decimal.LessThanOrEqual`. -/
def lessThanOrEqual (d1 d2 : Decimal) : Bool := decide (d1.cmp d2 ≤ 0)

/-- `Decimal.GreaterThan`. -/
def greaterThan (d1 d2 : Decimal) : Bool := decide (0 < d1.cmp d2)

/-- `Decimal.Ceil`: round up to the nearest integer.  For a negative
exponent the library divides the coefficient Euclidean-style (`big.Int.DivMod`)
by `10^(-exp)` and adds one when the remainder is nonzero. -/
def ceil (d : Decimal) : Decimal :=
  if 0 ≤ d.exp then d
  else
    let E : Int := 10 ^ (-d.exp).toNat
    let z := d.value / E
    let m := d.value % E
    ⟨z + (if m = 0 then 0 else 1), 0⟩

/-- `Decimal.QuoRem`: truncated quotient of `d` by `d2` as a multiple of
`10^(-precision)`, together with the remainder.  Mirrors the library's
scaling of the two coefficients and `big.Int.QuoRem` (truncated division). -/
def quoRem (d d2 : Decimal) (precision : Int) : Decimal × Decimal :=
  let scale := -precision
  let e := d.exp - d2.exp - scale
  if e < 0 then
    let aa := d.value
    let bb := 10 ^ (-e).toNat * d2.value
    (⟨aa.tdiv bb, scale⟩, ⟨aa.tmod bb, d.exp⟩)
  else
    let aa := 10 ^ e.toNat * d.value
    let bb := d2.value
    (⟨aa.tdiv bb, scale⟩, ⟨aa.tmod bb, scale + d2.exp⟩)

/-- `Decimal.DivRound`: divide and round to `precision` fractional digits,
half away from zero (the rounding decision compares `2*|remainder|` against
`|d2|` at the right scale). -/
def divRound (d d2 : Decimal) (precision : Int) : Decimal :=
  let p := quoRem d d2 precision
  let q := p.1
  let r := p.2
  let r2 : Decimal := ⟨2 * |r.value|, r.exp + precision⟩
  let c := r2.cmp d2.dabs
  if c < 0 then q
  else if d.value.sign * d2.value.sign < 0 then q.sub ⟨1, -precision⟩
  else q.add ⟨1, -precision⟩

/-- `Decimal.Div`: `DivRound` at the library default `DivisionPrecision = 16`. -/
def div (d d2 : Decimal) : Decimal := divRound d d2 16

/-- The rational value denoted by a decimal. -/
def val (d : Decimal) : ℚ := (d.value : ℚ) * (10 : ℚ) ^ d.exp

/-- Rounding half away from zero, as the library's `DivRound` does. -/
def haRound (q : ℚ) : ℤ := if 0 ≤ q then ⌊q + 1/2⌋ else -⌊-q + 1/2⌋


/-- The integer the code obtains for one rate tier: divide at 16-digit
precision rounding half away from zero, then take the ceiling. -/
def codeCeilDiv (x : ℚ) (u : ℤ) : ℤ :=
  ⌈(haRound (x * 10 ^ (16:ℕ) / (u:ℚ)) : ℚ) / 10 ^ (16:ℕ)⌉


end Decimal

/-! ## Fare calculator (`farecalculator/calculator.go`) -/

/-- `BaseFare`: 400 yen initial fare. -/
def BaseFare : Decimal := Decimal.newFromInt 400

/-- `BaseDistance`: base-fare threshold, 1000. -/
def BaseDistance : Decimal := Decimal.newFromInt 1000

/-- `StandardRate`: 40 yen per standard unit. -/
def StandardRate : Decimal := Decimal.newFromInt 40

/-- `StandardUnit`: 400 distance units per standard fare unit. -/
def StandardUnit : Decimal := Decimal.newFromInt 400

/-- `StandardThreshold`: extended rate begins at 10000. -/
def StandardThreshold : Decimal := Decimal.newFromInt 10000

/-- `ExtendedRate`: 40 yen per extended unit. -/
def ExtendedRate : Decimal := Decimal.newFromInt 40

/-- `ExtendedUnit`: 350 distance units per extended fare unit. -/
def ExtendedUnit : Decimal := Decimal.newFromInt 350

/-- `farecalculator.FareBreakdown`. -/
structure FareBreakdown where
  BaseFareAmount : Decimal
  StandardFareAmount : Decimal
  ExtendedFareAmount : Decimal
  TotalFare : Decimal
  Distance : Decimal
deriving DecidableEq

/-- `TaxiCalculator.CalculateFare`, transcribed from
`farecalculator/calculator.go` lines 75–125. -/
def CalculateFare (distanceMeters : Decimal) : FareBreakdown :=
  if distanceMeters.isNegative || distanceMeters.isZero then
    { BaseFareAmount := Decimal.uninit
      StandardFareAmount := Decimal.uninit
      ExtendedFareAmount := Decimal.uninit
      TotalFare := Decimal.zero
      Distance := distanceMeters }
  else
    let baseFareAmount := BaseFare
    let sx :=
      if distanceMeters.lessThanOrEqual BaseDistance then
        (Decimal.uninit, Decimal.uninit)
      else
        let remainingDistance := distanceMeters.sub BaseDistance
        let standardDistance :=
          if remainingDistance.greaterThan (StandardThreshold.sub BaseDistance) then
            StandardThreshold.sub BaseDistance
          else remainingDistance
        let standardFareAmount :=
          if standardDistance.greaterThan Decimal.zero then
            ((standardDistance.div StandardUnit).ceil).mul StandardRate
          else Decimal.uninit
        let extendedFareAmount :=
          if remainingDistance.greaterThan (StandardThreshold.sub BaseDistance) then
            let extendedDistance :=
              remainingDistance.sub (StandardThreshold.sub BaseDistance)
            if extendedDistance.greaterThan Decimal.zero then
              ((extendedDistance.div ExtendedUnit).ceil).mul ExtendedRate
            else Decimal.uninit
          else Decimal.uninit
        (standardFareAmount, extendedFareAmount)
    let totalFare := (baseFareAmount.add sx.1).add sx.2
    { BaseFareAmount := baseFareAmount
      StandardFareAmount := sx.1
      ExtendedFareAmount := sx.2
      TotalFare := totalFare
      Distance := distanceMeters }

/-! ## Rational-level characterisation of the fare components -/

/-- Value of the base-fare component as a function of the distance value. -/
def baseFareVal (x : ℚ) : ℚ := if x ≤ 0 then 0 else 400

/-- Value of the standard-rate component as a function of the distance value. -/
def standardFareVal (x : ℚ) : ℚ :=
  if 1000 < x then 40 * Decimal.codeCeilDiv (min (x - 1000) 9000) 400 else 0

/-- Value of the extended-rate component as a function of the distance value. -/
def extendedFareVal (x : ℚ) : ℚ :=
  if 10000 < x then 40 * Decimal.codeCeilDiv (x - 10000) 350 else 0

/-- Value of the total fare as a function of the distance value. -/
def totalFareVal (x : ℚ) : ℚ := baseFareVal x + standardFareVal x + extendedFareVal x

/-! ## The exact tier formula of the specification -/

/-- Modelled from the spec §4.3: the tiered schedule with exact ceiling-unit
billing (`standardSpan = min(remaining, 9000)`, `ceil(span/unit) * rate`). -/
def specFare (x : ℚ) : ℚ :=
  if x ≤ 0 then 0
  else 400 + (if 1000 < x then 40 * ⌈min (x - 1000) 9000 / 400⌉ else 0)
    + (if 10000 < x then 40 * ⌈(x - 10000) / 350⌉ else 0)

/-! ## Records (`models/types.go`) and `CalculateFromRecords` -/

/-- `models.DistanceRecord`; Go's `time.Time` is modelled as a nanosecond
count, with 0 playing the role of the zero time value. -/
structure DistanceRecord where
  Timestamp : Int
  Distance : Decimal
deriving DecidableEq

/-- `models.FareCalculation`. -/
structure FareCalculation where
  BaseFare : Decimal
  DistanceFare : Decimal
  TimeFare : Decimal
  TotalFare : Decimal
deriving DecidableEq

/-- The max/min scan of `CalculateFromRecords` over `records[1:]`
(calculator.go lines 141–151). -/
def maxMinLoop : List DistanceRecord → Decimal × Decimal → Decimal × Decimal
  | [], acc => acc
  | record :: rest, acc =>
    let mx := if record.Distance.greaterThan acc.1 then record.Distance else acc.1
    let mn := if record.Distance.lessThan acc.2 then record.Distance else acc.2
    maxMinLoop rest (mx, mn)

/-- `TaxiCalculator.CalculateFromRecords`, transcribed from
`farecalculator/calculator.go` lines 129–169. -/
def CalculateFromRecords (records : List DistanceRecord) : FareCalculation :=
  match records with
  | [] =>
    { BaseFare := Decimal.zero, DistanceFare := Decimal.zero,
      TimeFare := Decimal.zero, TotalFare := Decimal.zero }
  | r0 :: rest =>
    let mm := maxMinLoop rest (r0.Distance, r0.Distance)
    let travelDistance := mm.1.sub mm.2
    let fareBreakdown := CalculateFare travelDistance
    { BaseFare := fareBreakdown.BaseFareAmount
      DistanceFare := fareBreakdown.StandardFareAmount.add fareBreakdown.ExtendedFareAmount
      TimeFare := Decimal.zero
      TotalFare := fareBreakdown.TotalFare }

/-! ## Data validator (`datavalidator/validator.go`) -/

/-- `datavalidator.ValidationErrorType`. -/
inductive ValidationErrorType
  | timing
  | format
  | mileage
  | sequence
  | constraint
deriving DecidableEq

/-- `datavalidator.ValidationError`.  The Go field `Type` is called `errType`
here (`Type` is reserved in Lean); the human-readable `Message` and the
formatted `Input` are not modelled. -/
structure ValidationError where
  errType : ValidationErrorType
  RecordIndex : Int
  Field : String
deriving DecidableEq

/-- `datavalidator.TimingError` (always on field "timestamp"). -/
def TimingError (recordIndex : Int) : ValidationError :=
  ⟨.timing, recordIndex, "timestamp"⟩

/-- `datavalidator.FormatError`. -/
def FormatError (recordIndex : Int) (field : String) : ValidationError :=
  ⟨.format, recordIndex, field⟩

/-- `datavalidator.MileageError` (always on field "distance"). -/
def MileageError (recordIndex : Int) : ValidationError :=
  ⟨.mileage, recordIndex, "distance"⟩

/-- `datavalidator.SequenceError` (record index -1, field "sequence"). -/
def SequenceError : ValidationError := ⟨.sequence, -1, "sequence"⟩

/-- `datavalidator.ConstraintError`. -/
def ConstraintError (recordIndex : Int) (field : String) : ValidationError :=
  ⟨.constraint, recordIndex, field⟩

/-- `datavalidator.DataValidator`; `MaxInterval` is a duration in
nanoseconds. -/
structure DataValidator where
  MaxInterval : Int
  AllowIdenticalTimestamps : Bool
  AllowIdenticalMileage : Bool
deriving DecidableEq

/-- `datavalidator.NewValidator`: 5-minute maximum interval, identical
timestamps and identical mileage allowed. -/
def NewValidator : DataValidator := ⟨5 * 60 * 1000000000, true, true⟩

/-- `DataValidator.ValidateRecord` (validator.go lines 160–174). -/
def ValidateRecord (record : DistanceRecord) : Option ValidationError :=
  if record.Timestamp = 0 then some (FormatError 0 "timestamp")
  else if record.Distance.isNegative then some (ConstraintError 0 "distance")
  else none

/-- `DataValidator.validateTimingConstraints` (lines 219–248). -/
def validateTimingConstraints (dv : DataValidator) (previous current : DistanceRecord)
    (currentIndex : Int) : Option ValidationError :=
  let timeDiff := current.Timestamp - previous.Timestamp
  if timeDiff < 0 then some (TimingError currentIndex)
  else if timeDiff = 0 ∧ dv.AllowIdenticalTimestamps = false then
    some (TimingError currentIndex)
  else if dv.MaxInterval < timeDiff then some (TimingError currentIndex)
  else none

/-- `DataValidator.validateMileageProgression` (lines 251–271). -/
def validateMileageProgression (dv : DataValidator) (previous current : DistanceRecord)
    (currentIndex : Int) : Option ValidationError :=
  let mileageDiff := current.Distance.sub previous.Distance
  if mileageDiff.isNegative then some (MileageError currentIndex)
  else if mileageDiff.isZero ∧ dv.AllowIdenticalMileage = false then
    some (MileageError currentIndex)
  else none

/-- The per-record loop of `ValidateSequence` (lines 189–197), which stamps
the failing record's index into the error. -/
def validateEach : Nat → List DistanceRecord → Option ValidationError
  | _, [] => none
  | i, r :: rest =>
    match ValidateRecord r with
    | some e => some { e with RecordIndex := (i : Int) }
    | none => validateEach (i + 1) rest

/-- The consecutive-pair loop of `ValidateSequence` (lines 200–213). -/
def validatePairs (dv : DataValidator) :
    Nat → DistanceRecord → List DistanceRecord → Option ValidationError
  | _, _, [] => none
  | i, previous, current :: rest =>
    match validateTimingConstraints dv previous current (i : Int) with
    | some e => some e
    | none =>
      match validateMileageProgression dv previous current (i : Int) with
      | some e => some e
      | none => validatePairs dv (i + 1) current rest

/-- `DataValidator.ValidateSequence` (lines 177–216). -/
def ValidateSequence (dv : DataValidator) (records : List DistanceRecord) :
    Option ValidationError :=
  match records with
  | [] => some SequenceError
  | [r] => ValidateRecord r
  | r :: r2 :: rest =>
    match validateEach 0 (r :: r2 :: rest) with
    | some e => some e
    | none => validatePairs dv 1 r (r2 :: rest)

/-- Modelled from the claim's wording: walk consecutive pairs in order; a
negative timestamp delta or a delta exceeding the maximum interval yields the
timing error carrying the current (later) record's index, a negative distance
delta the mileage error. -/
def firstPairViolation (maxInterval : Int) :
    Nat → DistanceRecord → List DistanceRecord → Option ValidationError
  | _, _, [] => none
  | i, previous, current :: rest =>
    if current.Timestamp - previous.Timestamp < 0
        ∨ maxInterval < current.Timestamp - previous.Timestamp then
      some (TimingError (i : Int))
    else if current.Distance.val - previous.Distance.val < 0 then
      some (MileageError (i : Int))
    else firstPairViolation maxInterval (i + 1) current rest

/-! ## Input parser (`inputparser`)

Lines are modelled as lists of characters.  Go's `time.Time` values produced
by the parser are modelled as nanoseconds since midnight of the parsed day;
the validator's zero-time sentinel is the integer 0.  Error messages and the
`Input` payload are not modelled. -/

/-- `inputparser.ErrorType`. -/
inductive ErrorType
  | format
  | timestamp
  | distance
  | io
deriving DecidableEq

/-- `inputparser.ParsingError` (field `Type` is `errType` here; `Message`
and `Input` are not modelled). -/
structure ParsingError where
  errType : ErrorType
  Line : Int
deriving DecidableEq

/-- Numeric value of an ASCII digit character. -/
def digitVal (c : Char) : Nat := c.toNat - 48

/-- ASCII whitespace, as trimmed by `strings.TrimSpace` (Unicode space
characters beyond ASCII are not modelled). -/
def isSpaceChar (c : Char) : Bool :=
  c == ' ' || c == '\t' || c == '\n' || c == '\r' || c == '\x0b' || c == '\x0c'

/-- `strings.TrimSpace` on a character list. -/
def trimSpace (l : List Char) : List Char :=
  ((l.dropWhile isSpaceChar).reverse.dropWhile isSpaceChar).reverse

/-- Shape of the first regex group of `linePattern`:
`\d{2}:\d{2}:\d{2}\.\d{3}` (exactly 12 characters). -/
def timestampShape (t : List Char) : Bool :=
  match t with
  | [h1, h2, c1, m1, m2, c2, s1, s2, p, f1, f2, f3] =>
    h1.isDigit && h2.isDigit && (c1 == ':') && m1.isDigit && m2.isDigit && (c2 == ':')
      && s1.isDigit && s2.isDigit && (p == '.') && f1.isDigit && f2.isDigit && f3.isDigit
  | _ => false

/-- `inputparser.distancePattern`: `^\d{8,}\.\d+$`. -/
def distanceShape (dl : List Char) : Bool :=
  let intPart := dl.takeWhile Char.isDigit
  let rest := dl.drop intPart.length
  decide (8 ≤ intPart.length) &&
    match rest with
    | '.' :: frac => decide (frac ≠ []) && frac.all Char.isDigit
    | _ => false

/-- `inputparser.linePattern`:
`^(\d{2}:\d{2}:\d{2}\.\d{3}) (\d{8,}\.\d+)$`; on a match, returns the
timestamp group and the distance group. -/
def lineMatch (l : List Char) : Option (List Char × List Char) :=
  let ts := l.take 12
  let rest := l.drop 12
  match rest with
  | ' ' :: ds => if timestampShape ts && distanceShape ds then some (ts, ds) else none
  | _ => none

/-- Modelled core of Go `time.Parse` with layout `15:04:05.000`: the digit
fields are read and the ranges hour ≤ 23, minute ≤ 59, second ≤ 59 are
enforced; the result is nanoseconds since midnight.  Any other shape fails. -/
def goParseTimeOfDay (t : List Char) : Option Int :=
  match t with
  | [h1, h2, ':', m1, m2, ':', s1, s2, '.', f1, f2, f3] =>
    if h1.isDigit && h2.isDigit && m1.isDigit && m2.isDigit && s1.isDigit && s2.isDigit
        && f1.isDigit && f2.isDigit && f3.isDigit then
      let hh := digitVal h1 * 10 + digitVal h2
      let mm := digitVal m1 * 10 + digitVal m2
      let ss := digitVal s1 * 10 + digitVal s2
      let ms := digitVal f1 * 100 + digitVal f2 * 10 + digitVal f3
      if hh ≤ 23 && mm ≤ 59 && ss ≤ 59 then
        some ((((hh * 3600 + mm * 60 + ss) * 1000 + ms : Nat) : Int) * 1000000)
      else none
    else none
  | _ => none

/-- `inputparser.parseTimestamp` (lines 429–449). -/
def parseTimestamp (timestampStr : List Char) : Except ParsingError Int :=
  if timestampStr = [] then .error ⟨.timestamp, 0⟩
  else
    match goParseTimeOfDay timestampStr with
    | some t => .ok t
    | none => .error ⟨.timestamp, 0⟩

/-- `inputparser.validateTimestampFormat` (lines 452–488). -/
def validateTimestampFormat (timestampStr : List Char) : Option ParsingError :=
  if timestampStr.length ≠ 12 then some ⟨.timestamp, 0⟩
  else if 3 ≤ timestampStr.length ∧ ¬ timestampStr.get? 2 = some ':' then
    some ⟨.timestamp, 0⟩
  else if 6 ≤ timestampStr.length ∧ ¬ timestampStr.get? 5 = some ':' then
    some ⟨.timestamp, 0⟩
  else if 9 ≤ timestampStr.length ∧ ¬ timestampStr.get? 8 = some '.' then
    some ⟨.timestamp, 0⟩
  else none

/-- `inputparser.parseTimestampWithValidation` (lines 491–499). -/
def parseTimestampWithValidation (timestampStr : List Char) : Except ParsingError Int :=
  match validateTimestampFormat timestampStr with
  | some e => .error e
  | none => parseTimestamp timestampStr

/-- Read a digit string most-significant-first. -/
def charsToNat (l : List Char) : Nat := l.foldl (fun a c => 10 * a + digitVal c) 0

/-- Modelled from the `shopspring/decimal` library's `NewFromString`,
restricted to plain literals: an optional sign, digits with at most one
decimal point and at least one digit; the coefficient is the digit string
read as an integer, the exponent is minus the number of fractional digits.
Exponent (`e`) notation is not modelled. -/
def goNewFromString (l : List Char) : Option Decimal :=
  let sp : Bool × List Char :=
    if l.head? = some '-' then (true, l.tail)
    else if l.head? = some '+' then (false, l.tail)
    else (false, l)
  let neg := sp.1
  let intPart := sp.2.takeWhile Char.isDigit
  let rest := sp.2.drop intPart.length
  match rest with
  | [] =>
    if intPart = [] then none
    else some ⟨(if neg then -1 else 1) * (charsToNat intPart : Int), 0⟩
  | '.' :: frac =>
    if decide (frac ≠ []) && frac.all Char.isDigit then
      some ⟨(if neg then -1 else 1) * (charsToNat (intPart ++ frac) : Int),
        -(frac.length : Int)⟩
    else none
  | _ => none

/-- `inputparser.parseDistance` (lines 502–531). -/
def parseDistance (distanceStr : List Char) : Except ParsingError Decimal :=
  if distanceStr = [] then .error ⟨.distance, 0⟩
  else
    match goNewFromString distanceStr with
    | none => .error ⟨.distance, 0⟩
    | some d => if d.isNegative then .error ⟨.distance, 0⟩ else .ok d

/-- `inputparser.validateDistanceFormat` (lines 534–543). -/
def validateDistanceFormat (distanceStr : List Char) : Option ParsingError :=
  if distanceShape distanceStr then none else some ⟨.distance, 0⟩

/-- `inputparser.parseDistanceWithValidation` (lines 546–554). -/
def parseDistanceWithValidation (distanceStr : List Char) : Except ParsingError Decimal :=
  match validateDistanceFormat distanceStr with
  | some e => .error e
  | none => parseDistance distanceStr

/-- `inputparser.parseLine` (lines 557–607). -/
def parseLine (line : List Char) (lineNum : Int) : Except ParsingError DistanceRecord :=
  let line := trimSpace line
  if line = [] then .error ⟨.format, lineNum⟩
  else
    match lineMatch line with
    | none => .error ⟨.format, lineNum⟩
    | some (timestampStr, distanceStr) =>
      match parseTimestampWithValidation timestampStr with
      | .error e => .error { e with Line := lineNum }
      | .ok timestamp =>
        match parseDistanceWithValidation distanceStr with
        | .error e => .error { e with Line := lineNum }
        | .ok distance => .ok ⟨timestamp, distance⟩

/-! ## Decimal serialisation (`shopspring/decimal`'s `String`) -/

/-- Little-endian decimal digits of a natural number, with explicit fuel. -/
def natToDigitsRev (fuel n : Nat) : List Nat :=
  match fuel with
  | 0 => []
  | f + 1 => if n = 0 then [] else n % 10 :: natToDigitsRev f (n / 10)

/-- The decimal digit string of a natural number (empty for 0), as
`big.Int.String` renders magnitudes. -/
def renderNat (n : Nat) : List Char :=
  (natToDigitsRev n n).reverse.map fun d => Char.ofNat (48 + d)

/-- `big.Int.String`. -/
def bigIntChars (v : Int) : List Char :=
  (if v < 0 then ['-'] else []) ++ (if v.natAbs = 0 then ['0'] else renderNat v.natAbs)

/-- Modelled from the `shopspring/decimal` library's `Decimal.String`
(`d.string(true)`): for a non-negative exponent, the rescaled integer; for a
negative exponent, the digit string split into integer and fractional parts
(zero-padded on the left when short), with trailing fractional zeros
trimmed. -/
def decimalToChars (d : Decimal) : List Char :=
  if 0 ≤ d.exp then bigIntChars (d.value * 10 ^ d.exp.toNat)
  else
    let s := if d.value.natAbs = 0 then ['0'] else renderNat d.value.natAbs
    let n := (-d.exp).toNat
    let ip_fp : List Char × List Char :=
      if n < s.length then (s.take (s.length - n), s.drop (s.length - n))
      else (['0'], List.replicate (n - s.length) '0' ++ s)
    let fracPart := (ip_fp.2.reverse.dropWhile (fun c => c == '0')).reverse
    (if d.value < 0 then ['-'] else [])
      ++ ip_fp.1 ++ (if fracPart = [] then [] else '.' :: fracPart)

/-- Parse a distance literal and re-serialise the parsed decimal. -/
def distanceRoundTrip (l : List Char) : Option (List Char) :=
  match parseDistance l with
  | .error _ => none
  | .ok d => some (decimalToChars d)

/-! ## Error handler (`errorhandler`, exit-code categorisation) -/

/-- `errorhandler.ExitCode` constants. -/
def ExitSuccess : Int := 0

/-- Exit code 1. -/
def ExitFormatError : Int := 1

/-- Exit code 2. -/
def ExitTimingError : Int := 2

/-- Exit code 3. -/
def ExitInsufficientData : Int := 3

/-- Exit code 4. -/
def ExitCalculationError : Int := 4

/-- Exit code 5. -/
def ExitGeneralError : Int := 5

/-- The two typed error families `errorhandler.categorizeError` dispatches on
(`*datavalidator.ValidationError` and `*inputparser.ParsingError`). -/
inductive AppError
  | validation (e : ValidationError)
  | parsing (e : ParsingError)
deriving DecidableEq

/-- `errorhandler.ApplicationErrorHandler.categorizeError` on the two typed
error families (the keyword-scanning default branch for untyped Go errors is
not modelled). -/
def categorizeError (e : AppError) : Int :=
  match e with
  | .validation v =>
    match v.errType with
    | .timing => ExitTimingError
    | .format => ExitFormatError
    | .mileage => ExitTimingError
    | .sequence => ExitInsufficientData
    | .constraint => ExitFormatError
  | .parsing p =>
    match p.errType with
    | .format => ExitFormatError
    | .timestamp => ExitFormatError
    | .distance => ExitFormatError
    | .io => ExitGeneralError

/-- The eight error kinds of the taxonomy. -/
inductive SpecErrorKind
  | formatParse
  | timestampParse
  | distanceParse
  | ioParse
  | timing
  | mileage
  | sequence
  | constraint
deriving DecidableEq

/-- The exit code `categorizeError` assigns to a representative error of each
kind of the taxonomy. -/
def kindExitCode (k : SpecErrorKind) : Int :=
  match k with
  | .formatParse => categorizeError (.parsing ⟨.format, 0⟩)
  | .timestampParse => categorizeError (.parsing ⟨.timestamp, 0⟩)
  | .distanceParse => categorizeError (.parsing ⟨.distance, 0⟩)
  | .ioParse => categorizeError (.parsing ⟨.io, 0⟩)
  | .timing => categorizeError (.validation (TimingError 0))
  | .mileage => categorizeError (.validation (MileageError 0))
  | .sequence => categorizeError (.validation SequenceError)
  | .constraint => categorizeError (.validation (ConstraintError 0 "distance"))

/-! ## Value semantics of the decimal embedding -/

namespace Decimal

lemma ten_zpow_pos (e : ℤ) : (0:ℚ) < 10 ^ e := zpow_pos (by norm_num) e

lemma ten_zpow_ne (e : ℤ) : ((10:ℚ)) ^ e ≠ 0 := ne_of_gt (ten_zpow_pos e)

lemma ten_pow_toNat {a b : ℤ} (h : b ≤ a) :
    ((10:ℚ)) ^ (a - b).toNat = 10 ^ (a - b) := by
  rw [← zpow_natCast, Int.toNat_of_nonneg (sub_nonneg.mpr h)]

lemma rescalePair_val₁ (d1 d2 : Decimal) :
    ((rescalePair d1 d2).1 : ℚ) * 10 ^ (rescalePair d1 d2).2.2 = d1.val := by
  unfold rescalePair
  split
  · next h =>
    show ((d1.value * 10 ^ (d1.exp - d2.exp).toNat : ℤ) : ℚ) * 10 ^ d2.exp = d1.val
    push_cast
    rw [mul_assoc, ten_pow_toNat h.le, ← zpow_add₀ (by norm_num : (10:ℚ) ≠ 0)]
    simp [Decimal.val]
  · rfl

lemma rescalePair_val₂ (d1 d2 : Decimal) :
    ((rescalePair d1 d2).2.1 : ℚ) * 10 ^ (rescalePair d1 d2).2.2 = d2.val := by
  unfold rescalePair
  split
  · rfl
  · next h =>
    push_neg at h
    show ((d2.value * 10 ^ (d2.exp - d1.exp).toNat : ℤ) : ℚ) * 10 ^ d1.exp = d2.val
    push_cast
    rw [mul_assoc, ten_pow_toNat h, ← zpow_add₀ (by norm_num : (10:ℚ) ≠ 0)]
    simp [Decimal.val]

lemma val_add (d1 d2 : Decimal) : (d1.add d2).val = d1.val + d2.val := by
  have h1 := rescalePair_val₁ d1 d2
  have h2 := rescalePair_val₂ d1 d2
  show (((rescalePair d1 d2).1 + (rescalePair d1 d2).2.1 : ℤ) : ℚ)
      * 10 ^ (rescalePair d1 d2).2.2 = _
  push_cast
  rw [add_mul, h1, h2]

lemma val_sub (d1 d2 : Decimal) : (d1.sub d2).val = d1.val - d2.val := by
  have h1 := rescalePair_val₁ d1 d2
  have h2 := rescalePair_val₂ d1 d2
  show (((rescalePair d1 d2).1 - (rescalePair d1 d2).2.1 : ℤ) : ℚ)
      * 10 ^ (rescalePair d1 d2).2.2 = _
  push_cast
  rw [sub_mul, h1, h2]

lemma val_mul (d1 d2 : Decimal) : (d1.mul d2).val = d1.val * d2.val := by
  show ((d1.value * d2.value : ℤ) : ℚ) * 10 ^ (d1.exp + d2.exp) = _
  push_cast
  rw [zpow_add₀ (by norm_num : (10:ℚ) ≠ 0)]
  unfold Decimal.val
  ring

lemma sign_lt_zero_iff (x : ℤ) : Int.sign x < 0 ↔ x < 0 := by
  rcases lt_trichotomy x 0 with h | h | h
  · simp [Int.sign_eq_neg_one_iff_neg.mpr h, h]
  · simp [h]
  · simp [Int.sign_eq_one_iff_pos.mpr h, not_lt.mpr h.le]

lemma sign_pos_iff (x : ℤ) : 0 < Int.sign x ↔ 0 < x := by
  rcases lt_trichotomy x 0 with h | h | h
  · simp [Int.sign_eq_neg_one_iff_neg.mpr h, not_lt.mpr h.le]
  · simp [h]
  · simp [Int.sign_eq_one_iff_pos.mpr h, h]

lemma cast_mul_zpow_lt_iff (a b e : ℤ) :
    (a:ℚ) * 10 ^ e < (b:ℚ) * 10 ^ e ↔ a < b := by
  rw [mul_lt_mul_right (ten_zpow_pos e), Int.cast_lt]

lemma cmp_lt_iff (d1 d2 : Decimal) : d1.cmp d2 < 0 ↔ d1.val < d2.val := by
  have h1 := rescalePair_val₁ d1 d2
  have h2 := rescalePair_val₂ d1 d2
  show Int.sign ((rescalePair d1 d2).1 - (rescalePair d1 d2).2.1) < 0 ↔ _
  rw [sign_lt_zero_iff, ← h1, ← h2, cast_mul_zpow_lt_iff]
  omega

lemma cmp_eq_zero_iff (d1 d2 : Decimal) : d1.cmp d2 = 0 ↔ d1.val = d2.val := by
  have h1 := rescalePair_val₁ d1 d2
  have h2 := rescalePair_val₂ d1 d2
  show Int.sign ((rescalePair d1 d2).1 - (rescalePair d1 d2).2.1) = 0 ↔ _
  rw [Int.sign_eq_zero_iff_zero, ← h1, ← h2]
  constructor
  · intro h
    have he : (rescalePair d1 d2).1 = (rescalePair d1 d2).2.1 := by omega
    rw [he]
  · intro h
    have he := mul_right_cancel₀ (ten_zpow_ne (rescalePair d1 d2).2.2) h
    have he' : (rescalePair d1 d2).1 = (rescalePair d1 d2).2.1 := by exact_mod_cast he
    omega

lemma cmp_pos_iff (d1 d2 : Decimal) : 0 < d1.cmp d2 ↔ d2.val < d1.val := by
  have h1 := rescalePair_val₁ d1 d2
  have h2 := rescalePair_val₂ d1 d2
  show 0 < Int.sign ((rescalePair d1 d2).1 - (rescalePair d1 d2).2.1) ↔ _
  rw [sign_pos_iff, ← h1, ← h2, cast_mul_zpow_lt_iff]
  omega

lemma lessThanOrEqual_iff (d1 d2 : Decimal) :
    d1.lessThanOrEqual d2 = true ↔ d1.val ≤ d2.val := by
  unfold lessThanOrEqual
  rw [decide_eq_true_iff]
  constructor
  · intro h
    by_contra hc
    push_neg at hc
    have := (cmp_pos_iff d1 d2).mpr hc
    omega
  · intro h
    by_contra hc
    push_neg at hc
    have := (cmp_pos_iff d1 d2).mp hc
    exact absurd h (not_le.mpr this)

lemma greaterThan_iff (d1 d2 : Decimal) :
    d1.greaterThan d2 = true ↔ d2.val < d1.val := by
  unfold greaterThan
  rw [decide_eq_true_iff]
  exact cmp_pos_iff d1 d2

lemma lessThan_iff (d1 d2 : Decimal) :
    d1.lessThan d2 = true ↔ d1.val < d2.val := by
  unfold lessThan
  rw [decide_eq_true_iff]
  exact cmp_lt_iff d1 d2

lemma isNegative_iff (d : Decimal) : d.isNegative = true ↔ d.val < 0 := by
  unfold isNegative
  rw [decide_eq_true_iff]
  unfold Decimal.val
  constructor
  · intro h
    exact mul_neg_of_neg_of_pos (by exact_mod_cast h) (ten_zpow_pos _)
  · intro h
    by_contra hc
    push_neg at hc
    have hge : (0:ℚ) ≤ (d.value : ℚ) * 10 ^ d.exp :=
      mul_nonneg (by exact_mod_cast hc) (ten_zpow_pos _).le
    exact absurd h (not_lt.mpr hge)

lemma isZero_iff (d : Decimal) : d.isZero = true ↔ d.val = 0 := by
  unfold isZero
  rw [decide_eq_true_iff]
  unfold Decimal.val
  constructor
  · intro h; rw [h]; simp
  · intro h
    rcases mul_eq_zero.mp h with h' | h'
    · exact_mod_cast h'
    · exact absurd h' (ten_zpow_ne _)

lemma val_zero : (Decimal.zero).val = 0 := by simp [Decimal.zero, Decimal.val]

lemma val_uninit : (Decimal.uninit).val = 0 := by simp [Decimal.uninit, Decimal.val]

lemma val_newFromInt (n : ℤ) : (Decimal.newFromInt n).val = n := by
  simp [Decimal.newFromInt, Decimal.val]

lemma val_ceil (d : Decimal) : (d.ceil).val = (⌈d.val⌉ : ℚ) := by
  unfold ceil
  split
  · next h =>
    have hint : d.val = ((d.value * 10 ^ d.exp.toNat : ℤ) : ℚ) := by
      unfold Decimal.val
      push_cast
      rw [← zpow_natCast (10:ℚ) d.exp.toNat, Int.toNat_of_nonneg h]
    rw [hint, Int.ceil_intCast, ← hint]
  · next h =>
    push_neg at h
    set n : ℕ := (-d.exp).toNat with hn
    set E : ℤ := 10 ^ n with hEdef
    have hE : (0:ℤ) < E := by positivity
    have hEq : (0:ℚ) < ((10:ℚ)) ^ n := by positivity
    have hcast : ((E : ℤ) : ℚ) = (10:ℚ) ^ n := by rw [hEdef]; push_cast; ring
    have hv : d.val = (d.value : ℚ) / ((10:ℚ) ^ n) := by
      unfold Decimal.val
      rw [div_eq_mul_inv]
      congr 1
      rw [← zpow_natCast (10:ℚ) n, ← zpow_neg]
      congr 1
      omega
    have hdm : E * (d.value / E) + d.value % E = d.value := Int.ediv_add_emod d.value E
    have hm0 : 0 ≤ d.value % E := Int.emod_nonneg _ (ne_of_gt hE)
    have hmlt : d.value % E < E := Int.emod_lt_of_pos _ hE
    show ((d.value / E + (if d.value % E = 0 then 0 else 1) : ℤ) : ℚ) * 10 ^ (0:ℤ) = _
    rw [zpow_zero, mul_one]
    split
    · next hm =>
      have hval : d.value = d.value / E * E := by
        rw [mul_comm]
        rw [hm, add_zero] at hdm
        exact hdm.symm
      have hvq : d.val = ((d.value / E : ℤ) : ℚ) := by
        rw [hv, div_eq_iff (ne_of_gt hEq), ← hcast]
        exact_mod_cast hval
      rw [hvq, Int.ceil_intCast]
      push_cast
      ring
    · next hm =>
      have hceil : ⌈d.val⌉ = d.value / E + 1 := by
        rw [Int.ceil_eq_iff]
        constructor
        · rw [hv, lt_div_iff₀ hEq, ← hcast]
          have hpos : 0 < d.value % E := lt_of_le_of_ne hm0 (Ne.symm hm)
          have h1 : d.value / E * E < d.value := by nlinarith [hdm, hpos]
          have h2 : ((d.value / E * E : ℤ) : ℚ) < ((d.value : ℤ) : ℚ) := by
            exact_mod_cast h1
          push_cast at h2 ⊢
          linarith [h2]
        · rw [hv, div_le_iff₀ hEq, ← hcast]
          have h1 : d.value ≤ (d.value / E + 1) * E := by nlinarith [hdm, hmlt]
          have h2 : ((d.value : ℤ) : ℚ) ≤ (((d.value / E + 1) * E : ℤ) : ℚ) := by
            exact_mod_cast h1
          push_cast at h2 ⊢
          linarith [h2]
      rw [hceil]

/-! ### Characterisation of `DivRound` as rounding half away from zero -/

lemma floor_half : ⌊(1:ℚ)/2⌋ = 0 := by
  rw [Int.floor_eq_iff]
  norm_num

lemma haRound_intCast (z : ℤ) : haRound (z : ℚ) = z := by
  unfold haRound
  split
  · rw [add_comm, Int.floor_add_int, floor_half, zero_add]
  · next h =>
    have : ((-z : ℤ) : ℚ) = -(z:ℚ) := by push_cast; ring
    rw [← this, add_comm, Int.floor_add_int, floor_half, zero_add]
    omega

lemma haRound_mono {q1 q2 : ℚ} (h : q1 ≤ q2) : haRound q1 ≤ haRound q2 := by
  unfold haRound
  split
  · next h1 =>
    rw [if_pos (le_trans h1 h)]
    exact Int.floor_le_floor (by linarith)
  · next h1 =>
    push_neg at h1
    split
    · next h2 =>
      have hl : -⌊-q1 + 1/2⌋ ≤ 0 := by
        have : (0:ℤ) ≤ ⌊-q1 + 1/2⌋ := Int.le_floor.mpr (by push_cast; linarith)
        omega
      have hr : (0:ℤ) ≤ ⌊q2 + 1/2⌋ := Int.le_floor.mpr (by push_cast; linarith)
      omega
    · next h2 =>
      have : ⌊-q2 + 1/2⌋ ≤ ⌊-q1 + 1/2⌋ := Int.floor_le_floor (by linarith)
      omega

lemma haRound_le (q : ℚ) : (haRound q : ℚ) ≤ q + 1/2 := by
  unfold haRound
  split
  · exact_mod_cast Int.floor_le (q + 1/2)
  · next h =>
    push_neg at h
    have h3 := Int.lt_floor_add_one (-q + 1/2)
    push_cast
    linarith

lemma haRound_ge (q : ℚ) : q - 1/2 ≤ (haRound q : ℚ) := by
  unfold haRound
  split
  · next h =>
    have := Int.lt_floor_add_one (q + 1/2)
    linarith
  · next h =>
    push_neg at h
    have := Int.floor_le (-q + 1/2)
    push_cast
    linarith

lemma neg_tmod_eq (a b : ℤ) : (-a).tmod b = -(a.tmod b) := by
  have h1 := Int.tdiv_add_tmod a b
  have h2 := Int.tdiv_add_tmod (-a) b
  rw [Int.neg_tdiv] at h2
  linarith

lemma floor_add_half_div (a b : ℤ) (ha : 0 ≤ a) (hb : 0 < b) :
    ⌊(a:ℚ)/(b:ℚ) + 1/2⌋ = a / b + (if 2 * (a % b) < b then 0 else 1) := by
  set B : ℕ := b.toNat with hBdef
  have hBb : (B:ℤ) = b := Int.toNat_of_nonneg hb.le
  have h2B : ((2*B : ℕ):ℤ) = 2*b := by push_cast; omega
  have hq2B : ((2*B : ℕ):ℚ) = 2*(b:ℚ) := by exact_mod_cast h2B
  have hbq : ((b:ℤ):ℚ) ≠ 0 := by exact_mod_cast hb.ne'
  have key : (a:ℚ)/(b:ℚ) + 1/2 = ((2*a+b : ℤ):ℚ) / ((2*B : ℕ):ℚ) := by
    rw [hq2B]
    push_cast
    field_simp
    ring
  rw [key, Rat.floor_intCast_div_natCast, h2B]
  have hz := Int.ediv_add_emod a b
  have hm0 : 0 ≤ a % b := Int.emod_nonneg a hb.ne'
  have hmb : a % b < b := Int.emod_lt_of_pos a hb
  have h2b0 : (2*b : ℤ) ≠ 0 := by omega
  have hrw : 2*a+b = (2*(a % b)+b) + (2*b)*(a / b) := by linarith [hz]
  rw [hrw, Int.add_mul_ediv_left _ _ h2b0]
  split
  · next h =>
    have h0 : (2*(a % b)+b) / (2*b) = 0 := Int.ediv_eq_zero_of_lt (by omega) (by omega)
    omega
  · next h =>
    have hrw2 : 2*(a % b)+b = (2*(a % b) - b) + (2*b)*1 := by ring
    rw [hrw2, Int.add_mul_ediv_left _ _ h2b0]
    have h0 : (2*(a % b)-b) / (2*b) = 0 := Int.ediv_eq_zero_of_lt (by omega) (by omega)
    omega

lemma tdivRound (a b : ℤ) (hb : 0 < b) :
    a.tdiv b + (if 2 * |a.tmod b| < b then 0 else if a < 0 then -1 else 1)
      = haRound ((a:ℚ)/(b:ℚ)) := by
  rcases le_or_lt 0 a with ha | ha
  · have hq0 : (0:ℚ) ≤ (a:ℚ)/(b:ℚ) :=
      div_nonneg (by exact_mod_cast ha) (by exact_mod_cast hb.le)
    unfold haRound
    rw [if_pos hq0, floor_add_half_div a b ha hb,
      Int.tdiv_eq_ediv ha hb.le, Int.tmod_eq_emod ha hb.le,
      abs_of_nonneg (Int.emod_nonneg a hb.ne')]
    have hcomp : ¬ a < 0 := not_lt.mpr ha
    split <;> simp [hcomp]
  · have ha' : (0:ℤ) ≤ -a := by omega
    have hq0 : (a:ℚ)/(b:ℚ) < 0 :=
      div_neg_of_neg_of_pos (by exact_mod_cast ha) (by exact_mod_cast hb)
    unfold haRound
    rw [if_neg (not_le.mpr hq0)]
    have hflip : -((a:ℚ)/(b:ℚ)) = ((-a : ℤ):ℚ)/(b:ℚ) := by push_cast; ring
    rw [hflip, floor_add_half_div (-a) b ha' hb]
    have htd : a.tdiv b = -((-a).tdiv b) := by
      have := Int.neg_tdiv a b
      omega
    have htm : |a.tmod b| = (-a) % b := by
      rw [← abs_neg, ← neg_tmod_eq a b, Int.tmod_eq_emod ha' hb.le,
        abs_of_nonneg (Int.emod_nonneg (-a) hb.ne')]
    rw [htd, Int.tdiv_eq_ediv ha' hb.le, htm]
    split <;> simp [ha] <;> omega

lemma sub_same_exp (x y e : ℤ) : (Decimal.mk x e).sub ⟨y, e⟩ = ⟨x - y, e⟩ := by
  simp [sub, rescalePair]

lemma add_same_exp (x y e : ℤ) : (Decimal.mk x e).add ⟨y, e⟩ = ⟨x + y, e⟩ := by
  simp [add, rescalePair]

lemma quoRem16_neg (a : Decimal) (u : ℤ) (h : a.exp + 16 < 0) :
    a.quoRem ⟨u, 0⟩ 16 =
      (⟨a.value.tdiv (10 ^ (-(a.exp + 16)).toNat * u), -16⟩,
       ⟨a.value.tmod (10 ^ (-(a.exp + 16)).toNat * u), a.exp⟩) := by
  unfold quoRem
  dsimp only
  simp only [sub_zero, sub_neg_eq_add]
  rw [if_pos h]

lemma quoRem16_nonneg (a : Decimal) (u : ℤ) (h : 0 ≤ a.exp + 16) :
    a.quoRem ⟨u, 0⟩ 16 =
      (⟨(10 ^ (a.exp + 16).toNat * a.value).tdiv u, -16⟩,
       ⟨(10 ^ (a.exp + 16).toNat * a.value).tmod u, -16⟩) := by
  unfold quoRem
  dsimp only
  simp only [sub_zero, sub_neg_eq_add]
  rw [if_neg (not_lt.mpr h)]
  norm_num

lemma divRound_eval (a : Decimal) (u : ℤ) (hu : 0 < u) (aa bb rexp : ℤ) (hbb : 0 < bb)
    (hq : a.quoRem ⟨u, 0⟩ 16 = (⟨aa.tdiv bb, -16⟩, ⟨aa.tmod bb, rexp⟩))
    (hsign : aa < 0 ↔ a.value < 0)
    (hcmp : ((⟨2 * |aa.tmod bb|, rexp + 16⟩ : Decimal).cmp (dabs ⟨u, 0⟩) < 0)
      ↔ 2 * |aa.tmod bb| < bb) :
    a.divRound ⟨u, 0⟩ 16 = ⟨haRound ((aa:ℚ)/(bb:ℚ)), -16⟩ := by
  have htd := tdivRound aa bb hbb
  have hus : (u:ℤ).sign = 1 := Int.sign_eq_one_iff_pos.mpr hu
  unfold divRound
  rw [hq]
  dsimp only
  rcases lt_or_le (2 * |aa.tmod bb|) bb with h | h
  · rw [if_pos (hcmp.mpr h)]
    rw [if_pos h, add_zero] at htd
    rw [htd]
  · rw [if_neg (by rw [hcmp]; omega)]
    rw [if_neg (not_lt.mpr h)] at htd
    rcases lt_or_le aa 0 with h2 | h2
    · have hv : a.value < 0 := hsign.mp h2
      rw [if_pos (by rw [hus, mul_one]; exact sign_lt_zero_iff _ |>.mpr hv)]
      rw [if_pos h2] at htd
      rw [sub_same_exp]
      rw [show aa.tdiv bb - 1 = aa.tdiv bb + -1 by ring, htd]
    · have hv : ¬ a.value < 0 := fun hc => absurd (hsign.mpr hc) (not_lt.mpr h2)
      rw [if_neg (by rw [hus, mul_one, sign_lt_zero_iff]; exact hv)]
      rw [if_neg (not_lt.mpr h2)] at htd
      rw [add_same_exp, htd]

lemma divRound16_unit (a : Decimal) (u : ℤ) (hu : 0 < u) :
    a.divRound ⟨u, 0⟩ 16 = ⟨haRound (a.val * 10 ^ (16:ℕ) / (u:ℚ)), -16⟩ := by
  have hten : (10:ℚ) ≠ 0 := by norm_num
  have huq : (0:ℚ) < (u:ℚ) := by exact_mod_cast hu
  rcases lt_or_le (a.exp + 16) 0 with h | h
  · set k : ℕ := (-(a.exp + 16)).toNat with hk
    have hkz : (k:ℤ) = -(a.exp + 16) := Int.toNat_of_nonneg (by omega)
    have hbb : (0:ℤ) < 10 ^ k * u := by positivity
    have hq := quoRem16_neg a u h
    rw [← hk] at hq
    have hcmp : ∀ m : ℤ, ((⟨2 * |m|, a.exp + 16⟩ : Decimal).cmp (dabs ⟨u, 0⟩) < 0)
        ↔ 2 * |m| < 10 ^ k * u := by
      intro m
      rw [cmp_lt_iff]
      have hv1 : (Decimal.mk (2 * |m|) (a.exp + 16)).val
          = ((2 * |m| : ℤ) : ℚ) * ((10:ℚ) ^ (k:ℕ))⁻¹ := by
        unfold Decimal.val
        rw [show a.exp + 16 = -(k:ℤ) by omega, zpow_neg, zpow_natCast]
      have hv2 : (dabs ⟨u, 0⟩ : Decimal).val = (u:ℚ) := by
        unfold Decimal.val dabs
        rw [abs_of_pos hu]
        norm_num
      rw [hv1, hv2, ← div_eq_mul_inv, div_lt_iff₀ (by positivity)]
      constructor
      · intro hlt
        have : ((2 * |m| : ℤ) : ℚ) < (((10:ℤ) ^ k * u : ℤ) : ℚ) := by
          push_cast
          push_cast at hlt
          linarith
        exact_mod_cast this
      · intro hlt
        have : ((2 * |m| : ℤ) : ℚ) < (((10:ℤ) ^ k * u : ℤ) : ℚ) := by exact_mod_cast hlt
        push_cast at this
        push_cast
        linarith
    rw [divRound_eval a u hu a.value (10 ^ k * u) a.exp hbb hq Iff.rfl
      (hcmp (a.value.tmod (10 ^ k * u)))]
    have hpow : (10:ℚ) ^ a.exp * (10:ℚ) ^ (16:ℕ) * (10:ℚ) ^ (k:ℕ) = 1 := by
      rw [← zpow_natCast (10:ℚ) 16, ← zpow_natCast (10:ℚ) k, ← zpow_add₀ hten,
        ← zpow_add₀ hten]
      have hz : a.exp + ((16:ℕ):ℤ) + (k:ℤ) = 0 := by push_cast; omega
      rw [hz, zpow_zero]
    have h1 : a.val * (10:ℚ) ^ (16:ℕ) * (10:ℚ) ^ (k:ℕ)
        = (a.value:ℚ) * ((10:ℚ) ^ a.exp * (10:ℚ) ^ (16:ℕ) * (10:ℚ) ^ (k:ℕ)) := by
      unfold Decimal.val
      ring
    rw [hpow, mul_one] at h1
    have harg : ((a.value : ℤ):ℚ) / (((10:ℤ) ^ k * u : ℤ):ℚ)
        = a.val * (10:ℚ) ^ (16:ℕ) / (u:ℚ) := by
      push_cast
      rw [← h1, mul_comm ((10:ℚ) ^ (k:ℕ)) (u:ℚ)]
      rw [mul_div_mul_right _ _ (by positivity : ((10:ℚ) ^ (k:ℕ)) ≠ 0)]
    rw [harg]
  · set j : ℕ := (a.exp + 16).toNat with hj
    have hjz : (j:ℤ) = a.exp + 16 := Int.toNat_of_nonneg h
    have hq := quoRem16_nonneg a u h
    rw [← hj] at hq
    have hsign : 10 ^ j * a.value < 0 ↔ a.value < 0 := by
      constructor
      · intro hlt
        by_contra hc
        push_neg at hc
        have : (0:ℤ) ≤ 10 ^ j * a.value :=
          mul_nonneg (by positivity) hc
        omega
      · intro hlt
        exact mul_neg_of_pos_of_neg (by positivity) hlt
    have hcmp : ∀ m : ℤ, ((⟨2 * |m|, -16 + 16⟩ : Decimal).cmp (dabs ⟨u, 0⟩) < 0)
        ↔ 2 * |m| < u := by
      intro m
      rw [cmp_lt_iff]
      have hv1 : (Decimal.mk (2 * |m|) (-16 + 16)).val = ((2 * |m| : ℤ) : ℚ) := by
        unfold Decimal.val
        norm_num
      have hv2 : (dabs ⟨u, 0⟩ : Decimal).val = (u:ℚ) := by
        unfold Decimal.val dabs
        rw [abs_of_pos hu]
        norm_num
      rw [hv1, hv2, Int.cast_lt]
    rw [divRound_eval a u hu (10 ^ j * a.value) u (-16) hu hq hsign
      (hcmp ((10 ^ j * a.value).tmod u))]
    have hpow : (10:ℚ) ^ (j:ℕ) = (10:ℚ) ^ a.exp * (10:ℚ) ^ (16:ℕ) := by
      rw [← zpow_natCast (10:ℚ) 16, ← zpow_natCast (10:ℚ) j, ← zpow_add₀ hten]
      congr 1
    have harg : (((10:ℤ) ^ j * a.value : ℤ):ℚ) / ((u : ℤ):ℚ)
        = a.val * (10:ℚ) ^ (16:ℕ) / (u:ℚ) := by
      unfold Decimal.val
      push_cast
      rw [hpow]
      ring
    rw [harg]


lemma val_mk_zeroExp (v : ℤ) : (Decimal.mk v 0).val = (v:ℚ) := by
  unfold Decimal.val
  norm_num

lemma div_ceil_val (a : Decimal) (u : ℤ) (hu : 0 < u) :
    ((a.div ⟨u, 0⟩).ceil).val = (codeCeilDiv a.val u : ℚ) := by
  unfold div
  rw [divRound16_unit a u hu, val_ceil]
  unfold codeCeilDiv
  congr 2
  unfold Decimal.val
  dsimp only
  rw [show (-16 : ℤ) = -((16:ℕ):ℤ) by norm_num, zpow_neg, zpow_natCast,
    ← div_eq_mul_inv]

end Decimal

lemma negOrZero_iff (d : Decimal) :
    (d.isNegative || d.isZero) = true ↔ d.val ≤ 0 := by
  rw [Bool.or_eq_true, Decimal.isNegative_iff, Decimal.isZero_iff]
  constructor
  · intro h
    rcases h with h | h
    · exact h.le
    · exact h.le
  · intro h
    rcases lt_or_eq_of_le h with h' | h'
    · exact Or.inl h'
    · exact Or.inr h'

lemma val_BaseFare : BaseFare.val = 400 := Decimal.val_mk_zeroExp 400

lemma val_BaseDistance : BaseDistance.val = 1000 := Decimal.val_mk_zeroExp 1000

lemma val_StandardRate : StandardRate.val = 40 := Decimal.val_mk_zeroExp 40

lemma val_ExtendedRate : ExtendedRate.val = 40 := Decimal.val_mk_zeroExp 40

lemma threshold_sub_base : StandardThreshold.sub BaseDistance = (⟨9000, 0⟩ : Decimal) := by
  decide

/-- The four fare components of `CalculateFare` are, at the level of rational
values, the functions `baseFareVal`, `standardFareVal`, `extendedFareVal` and
`totalFareVal` of the distance value. -/
lemma CalculateFare_val (d : Decimal) :
    (CalculateFare d).BaseFareAmount.val = baseFareVal d.val ∧
    (CalculateFare d).StandardFareAmount.val = standardFareVal d.val ∧
    (CalculateFare d).ExtendedFareAmount.val = extendedFareVal d.val ∧
    (CalculateFare d).TotalFare.val = totalFareVal d.val := by
  unfold CalculateFare baseFareVal standardFareVal extendedFareVal totalFareVal
    baseFareVal standardFareVal extendedFareVal
  by_cases h0 : d.val ≤ 0
  · rw [if_pos ((negOrZero_iff d).mpr h0), if_pos h0,
      if_neg (by linarith : ¬ (1000:ℚ) < d.val),
      if_neg (by linarith : ¬ (10000:ℚ) < d.val)]
    refine ⟨Decimal.val_uninit, Decimal.val_uninit, Decimal.val_uninit, ?_⟩
    rw [Decimal.val_zero]
    norm_num
  · push_neg at h0
    rw [if_neg (fun hc => absurd ((negOrZero_iff d).mp hc) (not_le.mpr h0)),
      if_neg (not_le.mpr h0)]
    by_cases h1 : d.val ≤ 1000
    · rw [if_pos ((Decimal.lessThanOrEqual_iff d BaseDistance).mpr
        (by rw [val_BaseDistance]; exact h1)),
        if_neg (not_lt.mpr h1), if_neg (by linarith : ¬ (10000:ℚ) < d.val)]
      dsimp only
      refine ⟨val_BaseFare, Decimal.val_uninit, Decimal.val_uninit, ?_⟩
      rw [Decimal.val_add, Decimal.val_add]
      norm_num [val_BaseFare, Decimal.val_uninit]
    · push_neg at h1
      rw [if_neg (fun hc => absurd ((Decimal.lessThanOrEqual_iff d BaseDistance).mp hc)
        (by rw [val_BaseDistance]; exact not_le.mpr h1)),
        if_pos (by linarith : (1000:ℚ) < d.val)]
      rw [threshold_sub_base]
      have hremval : (d.sub BaseDistance).val = d.val - 1000 := by
        rw [Decimal.val_sub, val_BaseDistance]
      have h9000 : (Decimal.mk 9000 0).val = 9000 := Decimal.val_mk_zeroExp 9000
      dsimp only
      by_cases h2 : 9000 < d.val - 1000
      · have hgrt : (d.sub BaseDistance).greaterThan ⟨9000, 0⟩ = true :=
          (Decimal.greaterThan_iff _ _).mpr (by rw [hremval, h9000]; exact h2)
        have hextval : ((d.sub BaseDistance).sub ⟨9000, 0⟩).val = d.val - 10000 := by
          rw [Decimal.val_sub, hremval, h9000]
          ring
        rw [if_pos hgrt]
        rw [if_pos (by decide : (Decimal.mk 9000 0).greaterThan Decimal.zero = true)]
        rw [if_pos hgrt]
        rw [if_pos ((Decimal.greaterThan_iff _ _).mpr
          (by rw [hextval, Decimal.val_zero]; linarith))]
        rw [if_pos (by linarith : (10000:ℚ) < d.val), min_eq_right (le_of_lt h2)]
        have hstd : (((Decimal.mk 9000 0).div StandardUnit).ceil.mul StandardRate).val
            = 40 * Decimal.codeCeilDiv 9000 400 := by
          rw [Decimal.val_mul, show StandardUnit = (Decimal.mk 400 0) from rfl,
            Decimal.div_ceil_val _ 400 (by norm_num), val_StandardRate, h9000]
          ring
        have hext : ((((d.sub BaseDistance).sub ⟨9000, 0⟩).div ExtendedUnit).ceil.mul
            ExtendedRate).val = 40 * Decimal.codeCeilDiv (d.val - 10000) 350 := by
          rw [Decimal.val_mul, show ExtendedUnit = (Decimal.mk 350 0) from rfl,
            Decimal.div_ceil_val _ 350 (by norm_num), val_ExtendedRate, hextval]
          ring
        refine ⟨val_BaseFare, hstd, hext, ?_⟩
        rw [Decimal.val_add, Decimal.val_add, val_BaseFare, hstd, hext]
      · have hngrt : ¬ (d.sub BaseDistance).greaterThan ⟨9000, 0⟩ = true := fun hc =>
          absurd ((Decimal.greaterThan_iff _ _).mp hc)
            (by rw [hremval, h9000]; exact not_lt.mpr (not_lt.mp h2))
        rw [if_neg hngrt]
        rw [if_pos ((Decimal.greaterThan_iff _ _).mpr
          (by rw [hremval, Decimal.val_zero]; linarith))]
        rw [if_neg hngrt]
        rw [if_neg (by linarith : ¬ (10000:ℚ) < d.val), min_eq_left (not_lt.mp h2)]
        have hstd : (((d.sub BaseDistance).div StandardUnit).ceil.mul StandardRate).val
            = 40 * Decimal.codeCeilDiv (d.val - 1000) 400 := by
          rw [Decimal.val_mul, show StandardUnit = (Decimal.mk 400 0) from rfl,
            Decimal.div_ceil_val _ 400 (by norm_num), val_StandardRate, hremval]
          ring
        refine ⟨val_BaseFare, hstd, Decimal.val_uninit, ?_⟩
        rw [Decimal.val_add, Decimal.val_add, hstd]
        norm_num [val_BaseFare, Decimal.val_uninit]


/-! ## Monotonicity of the fare in the distance -/

lemma codeCeilDiv_mono {x1 x2 : ℚ} (u : ℤ) (hu : 0 < u) (h : x1 ≤ x2) :
    Decimal.codeCeilDiv x1 u ≤ Decimal.codeCeilDiv x2 u := by
  unfold Decimal.codeCeilDiv
  have huq : (0:ℚ) < (u:ℚ) := by exact_mod_cast hu
  have harg : x1 * 10 ^ (16:ℕ) / (u:ℚ) ≤ x2 * 10 ^ (16:ℕ) / (u:ℚ) := by gcongr
  have hH := Decimal.haRound_mono harg
  apply Int.ceil_le_ceil
  gcongr

lemma codeCeilDiv_nonneg {x : ℚ} (u : ℤ) (hu : 0 < u) (hx : 0 ≤ x) :
    0 ≤ Decimal.codeCeilDiv x u := by
  unfold Decimal.codeCeilDiv
  have huq : (0:ℚ) < (u:ℚ) := by exact_mod_cast hu
  have harg : (0:ℚ) ≤ x * 10 ^ (16:ℕ) / (u:ℚ) :=
    div_nonneg (mul_nonneg hx (by positivity)) huq.le
  have h0 : Decimal.haRound ((0:ℚ)) = 0 := by
    have := Decimal.haRound_intCast 0
    simpa using this
  have hH : (0:ℤ) ≤ Decimal.haRound (x * 10 ^ (16:ℕ) / (u:ℚ)) := by
    have := Decimal.haRound_mono harg
    rw [h0] at this
    exact this
  apply Int.ceil_nonneg
  positivity

lemma baseFareVal_mono {x1 x2 : ℚ} (h : x1 ≤ x2) : baseFareVal x1 ≤ baseFareVal x2 := by
  unfold baseFareVal
  by_cases h1 : x1 ≤ 0
  · by_cases h2 : x2 ≤ 0
    · rw [if_pos h1, if_pos h2]
    · rw [if_pos h1, if_neg h2]
      norm_num
  · rw [if_neg h1, if_neg (by intro h2; exact h1 (le_trans h h2))]

lemma standardFareVal_mono {x1 x2 : ℚ} (h : x1 ≤ x2) :
    standardFareVal x1 ≤ standardFareVal x2 := by
  unfold standardFareVal
  by_cases h1 : 1000 < x1
  · rw [if_pos h1, if_pos (lt_of_lt_of_le h1 h)]
    have := codeCeilDiv_mono 400 (by norm_num)
      (min_le_min (by linarith : x1 - 1000 ≤ x2 - 1000) (le_refl (9000:ℚ)))
    have hc : ((Decimal.codeCeilDiv (min (x1 - 1000) 9000) 400 : ℤ) : ℚ)
        ≤ (Decimal.codeCeilDiv (min (x2 - 1000) 9000) 400 : ℚ) := by exact_mod_cast this
    linarith
  · rw [if_neg h1]
    by_cases h2 : 1000 < x2
    · rw [if_pos h2]
      have hnn := codeCeilDiv_nonneg 400 (by norm_num)
        (le_min (by linarith : (0:ℚ) ≤ x2 - 1000) (by norm_num : (0:ℚ) ≤ 9000))
      have hc : (0:ℚ) ≤ (Decimal.codeCeilDiv (min (x2 - 1000) 9000) 400 : ℚ) := by
        exact_mod_cast hnn
      linarith
    · rw [if_neg h2]

lemma extendedFareVal_mono {x1 x2 : ℚ} (h : x1 ≤ x2) :
    extendedFareVal x1 ≤ extendedFareVal x2 := by
  unfold extendedFareVal
  by_cases h1 : 10000 < x1
  · rw [if_pos h1, if_pos (lt_of_lt_of_le h1 h)]
    have := codeCeilDiv_mono 350 (by norm_num) (by linarith : x1 - 10000 ≤ x2 - 10000)
    have hc : ((Decimal.codeCeilDiv (x1 - 10000) 350 : ℤ) : ℚ)
        ≤ (Decimal.codeCeilDiv (x2 - 10000) 350 : ℚ) := by exact_mod_cast this
    linarith
  · rw [if_neg h1]
    by_cases h2 : 10000 < x2
    · rw [if_pos h2]
      have hnn := codeCeilDiv_nonneg 350 (by norm_num) (by linarith : (0:ℚ) ≤ x2 - 10000)
      have hc : (0:ℚ) ≤ (Decimal.codeCeilDiv (x2 - 10000) 350 : ℚ) := by exact_mod_cast hnn
      linarith
    · rw [if_neg h2]

lemma totalFareVal_mono {x1 x2 : ℚ} (h : x1 ≤ x2) :
    totalFareVal x1 ≤ totalFareVal x2 := by
  unfold totalFareVal
  have h1 := baseFareVal_mono h
  have h2 := standardFareVal_mono h
  have h3 := extendedFareVal_mono h
  linarith


/-- On inputs with at most 13 fractional digits the 16-digit rounded division
followed by `Ceil` agrees with the exact ceiling, for unit sizes up to 400. -/
lemma codeCeilDiv_eq_ceil (x : ℚ) (u : ℤ) (hu : 0 < u) (hu400 : u ≤ 400)
    (k : ℤ) (hx : x = (k:ℚ) / 10 ^ (13:ℕ)) :
    Decimal.codeCeilDiv x u = ⌈x / (u:ℚ)⌉ := by
  have huq : (0:ℚ) < (u:ℚ) := by exact_mod_cast hu
  have hE : (0:ℚ) < 10 ^ (16:ℕ) := by positivity
  set n : ℤ := ⌈x / (u:ℚ)⌉ with hn
  have hle : x / (u:ℚ) ≤ (n:ℚ) := Int.le_ceil _
  set Q : ℚ := x * 10 ^ (16:ℕ) / (u:ℚ) with hQ
  have hQeq : Q = (x / (u:ℚ)) * 10 ^ (16:ℕ) := by rw [hQ]; ring
  have hupper : Decimal.haRound Q ≤ n * 10 ^ (16:ℕ) := by
    have h1 : Q ≤ ((n * 10 ^ (16:ℕ) : ℤ) : ℚ) := by
      rw [hQeq]
      push_cast
      nlinarith [hle, hE]
    have h2 := Decimal.haRound_mono h1
    rwa [Decimal.haRound_intCast] at h2
  have hlower : ((n - 1) * 10 ^ (16:ℕ) : ℤ) < Decimal.haRound Q := by
    rcases eq_or_lt_of_le hle with heq | hlt
    · have hQn : Q = ((n * 10 ^ (16:ℕ) : ℤ) : ℚ) := by
        rw [hQeq, heq]
        push_cast
        ring
      rw [hQn, Decimal.haRound_intCast]
      have hEl : ((10:ℤ) ^ (16:ℕ)) = 10000000000000000 := by norm_num
      rw [hEl]
      omega
    · have hgt : ((n:ℚ) - 1) < x / (u:ℚ) := by
        have hc := Int.ceil_lt_add_one (x / (u:ℚ))
        rw [← hn] at hc
        push_cast at hc ⊢
        linarith
      have hx' : x / (u:ℚ) = (k:ℚ) / ((10:ℚ) ^ (13:ℕ) * (u:ℚ)) := by rw [hx, div_div]
      have hD : ((n - 1) * (10 ^ (13:ℕ) * u) : ℤ) < k := by
        rw [hx', lt_div_iff₀ (by positivity)] at hgt
        have hc : (((n - 1) * (10 ^ (13:ℕ) * u) : ℤ) : ℚ) < (k:ℚ) := by
          push_cast
          linarith
        exact_mod_cast hc
      have hDq : ((n:ℚ) - 1) * ((10:ℚ) ^ (13:ℕ) * (u:ℚ)) + 1 ≤ (k:ℚ) := by
        have h1 : ((n - 1) * (10 ^ (13:ℕ) * u) : ℤ) + 1 ≤ k := Int.add_one_le_iff.mpr hD
        exact_mod_cast h1
      have hu400q : (u:ℚ) ≤ 400 := by exact_mod_cast hu400
      have hQk : Q = (k:ℚ) * 1000 / (u:ℚ) := by
        rw [hQ, hx]
        field_simp
        ring
      have hstepQ : ((n:ℚ) - 1) * 10 ^ (16:ℕ) + 2 ≤ Q := by
        rw [hQk, le_div_iff₀ huq]
        nlinarith [hDq, hu400q, huq]
      have hHge := Decimal.haRound_ge Q
      have hfin : (((n - 1) * 10 ^ (16:ℕ) : ℤ) : ℚ) < (Decimal.haRound Q : ℚ) := by
        push_cast
        nlinarith [hstepQ, hHge]
      exact_mod_cast hfin
  unfold Decimal.codeCeilDiv
  rw [← hQ, Int.ceil_eq_iff]
  constructor
  · have hc : (((n - 1) * 10 ^ (16:ℕ) : ℤ) : ℚ) < (Decimal.haRound Q : ℚ) := by
      exact_mod_cast hlower
    rw [lt_div_iff₀ hE]
    push_cast at hc ⊢
    linarith
  · have hc : (Decimal.haRound Q : ℚ) ≤ ((n * 10 ^ (16:ℕ) : ℤ) : ℚ) := by
      exact_mod_cast hupper
    rw [div_le_iff₀ hE]
    push_cast at hc ⊢
    linarith



lemma totalFareVal_eq_specFare (x : ℚ) (k : ℤ) (hx : x = (k:ℚ) / 10 ^ (13:ℕ)) :
    totalFareVal x = specFare x := by
  unfold totalFareVal baseFareVal standardFareVal extendedFareVal specFare
  by_cases h0 : x ≤ 0
  · rw [if_pos h0, if_pos h0, if_neg (by linarith : ¬ (1000:ℚ) < x),
      if_neg (by linarith : ¬ (10000:ℚ) < x)]
    norm_num
  · rw [if_neg h0, if_neg h0]
    have hstd : (if 1000 < x then
        (40 * Decimal.codeCeilDiv (min (x - 1000) 9000) 400 : ℚ) else 0)
      = (if 1000 < x then (40 * ⌈min (x - 1000) 9000 / 400⌉ : ℚ) else 0) := by
      by_cases h1 : 1000 < x
      · rw [if_pos h1, if_pos h1]
        have h1000 : x - 1000 = ((k - 10 ^ 16 : ℤ):ℚ) / 10 ^ (13:ℕ) := by
          rw [hx]
          push_cast
          field_simp
          ring
        have h9000 : (9000:ℚ) = ((9 * 10 ^ 16 : ℤ):ℚ) / 10 ^ (13:ℕ) := by norm_num
        have hmin : min (x - 1000) 9000
            = ((min (k - 10 ^ 16) (9 * 10 ^ 16) : ℤ):ℚ) / 10 ^ (13:ℕ) := by
          rw [h1000, h9000, min_div_div_right (by positivity)]
          push_cast
          ring_nf
        rw [codeCeilDiv_eq_ceil _ 400 (by norm_num) (by norm_num) _ hmin]
        norm_num
      · rw [if_neg h1, if_neg h1]
    have hext : (if 10000 < x then
        (40 * Decimal.codeCeilDiv (x - 10000) 350 : ℚ) else 0)
      = (if 10000 < x then (40 * ⌈(x - 10000) / 350⌉ : ℚ) else 0) := by
      by_cases h2 : 10000 < x
      · rw [if_pos h2, if_pos h2]
        have h10000 : x - 10000 = ((k - 10 ^ 17 : ℤ):ℚ) / 10 ^ (13:ℕ) := by
          rw [hx]
          push_cast
          field_simp
          ring
        rw [codeCeilDiv_eq_ceil _ 350 (by norm_num) (by norm_num) _ h10000]
        norm_num
      · rw [if_neg h2, if_neg h2]
    rw [hstd, hext, apply_ite (Int.cast : ℤ → ℚ), apply_ite (Int.cast : ℤ → ℚ)]
    push_cast
    ring



/-! ## Claims about the fare calculator -/

/-- C1 (amended): for every input distance with at most 13 fractional digits,
`CalculateFare` returns the tiered fare of the spec's schedule (exact
ceiling-unit billing: 400 base, 40 per ceil-unit of 400 over the 1000..10000
span, 40 per ceil-unit of 350 beyond 10000); in particular
`CalculateFare(1000).TotalFare = 400`, `CalculateFare(1001).TotalFare = 440`,
`CalculateFare(10000).TotalFare = 1320`, `CalculateFare(12000).TotalFare = 1560`.
The restriction on fractional digits is forced by the library's 16-digit
division precision, see `C1_counterexample_high_precision`. -/
theorem C1_calculateFare_schedule :
    (∀ d : Decimal, (∃ k : ℤ, d.val = (k:ℚ) / 10 ^ (13:ℕ)) →
      (CalculateFare d).TotalFare.val = specFare d.val) ∧
    (CalculateFare (Decimal.newFromInt 1000)).TotalFare.val = 400 ∧
    (CalculateFare (Decimal.newFromInt 1001)).TotalFare.val = 440 ∧
    (CalculateFare (Decimal.newFromInt 10000)).TotalFare.val = 1320 ∧
    (CalculateFare (Decimal.newFromInt 12000)).TotalFare.val = 1560 := by
  refine ⟨?_, ?_, ?_, ?_, ?_⟩
  · intro d hk
    obtain ⟨k, hk⟩ := hk
    rw [(CalculateFare_val d).2.2.2, totalFareVal_eq_specFare d.val k hk]
  · have h1 : (CalculateFare (Decimal.newFromInt 1000)).TotalFare.cmp
        (Decimal.newFromInt 400) = 0 := by decide
    have h2 := (Decimal.cmp_eq_zero_iff _ _).mp h1
    rw [Decimal.val_newFromInt] at h2
    simpa using h2
  · have h1 : (CalculateFare (Decimal.newFromInt 1001)).TotalFare.cmp
        (Decimal.newFromInt 440) = 0 := by decide
    have h2 := (Decimal.cmp_eq_zero_iff _ _).mp h1
    rw [Decimal.val_newFromInt] at h2
    simpa using h2
  · have h1 : (CalculateFare (Decimal.newFromInt 10000)).TotalFare.cmp
        (Decimal.newFromInt 1320) = 0 := by decide
    have h2 := (Decimal.cmp_eq_zero_iff _ _).mp h1
    rw [Decimal.val_newFromInt] at h2
    simpa using h2
  · have h1 : (CalculateFare (Decimal.newFromInt 12000)).TotalFare.cmp
        (Decimal.newFromInt 1560) = 0 := by decide
    have h2 := (Decimal.cmp_eq_zero_iff _ _).mp h1
    rw [Decimal.val_newFromInt] at h2
    simpa using h2

/-- Witness for C1: the schedule equation instantiated at distance 1000. -/
theorem C1_calculateFare_schedule_witness :
    (CalculateFare (Decimal.newFromInt 1000)).TotalFare.val
      = specFare ((Decimal.newFromInt 1000).val) :=
  C1_calculateFare_schedule.1 (Decimal.newFromInt 1000)
    ⟨10 ^ 16, by rw [Decimal.val_newFromInt]; norm_num⟩

/-- C1 counterexample: at the decimal distance 1000 + 10⁻¹⁶ the code's total
fare is 400 (the 16-digit division rounds the tiny overshoot away before the
ceiling), while the spec's exact ceiling-unit schedule gives 440.  So the
claim "for every input distance" is false as stated. -/
theorem C1_counterexample_high_precision :
    (CalculateFare ⟨10000000000000000001, -16⟩).TotalFare.val = 400 ∧
    specFare (Decimal.val ⟨10000000000000000001, -16⟩) = 440 ∧
    (400:ℚ) ≠ 440 := by
  refine ⟨?_, ?_, by norm_num⟩
  · have h1 : (CalculateFare ⟨10000000000000000001, -16⟩).TotalFare.cmp
        (Decimal.newFromInt 400) = 0 := by decide
    have h2 := (Decimal.cmp_eq_zero_iff _ _).mp h1
    rw [Decimal.val_newFromInt] at h2
    simpa using h2
  · have hv : Decimal.val ⟨10000000000000000001, -16⟩
        = 1000 + 1 / 10 ^ (16:ℕ) := by
      unfold Decimal.val
      rw [show (-16:ℤ) = -((16:ℕ):ℤ) by norm_num, zpow_neg, zpow_natCast]
      norm_num
    rw [hv]
    unfold specFare
    rw [if_neg (by norm_num), if_pos (by norm_num), if_neg (by norm_num)]
    have hx : (1000 + 1 / 10 ^ (16:ℕ) : ℚ) - 1000 = 1 / 10 ^ (16:ℕ) := by ring
    rw [hx, min_eq_left (by norm_num)]
    have hceil : ⌈(1 / (10:ℚ) ^ (16:ℕ)) / 400⌉ = 1 := by
      rw [Int.ceil_eq_iff]
      constructor
      · norm_num
      · norm_num
    rw [hceil]
    norm_num

/-- C2: `CalculateFare` is monotone in distance: `d1 ≤ d2` (as decimals)
implies `CalculateFare(d1).TotalFare ≤ CalculateFare(d2).TotalFare`. -/
theorem C2_calculateFare_monotone (d1 d2 : Decimal)
    (h : d1.lessThanOrEqual d2 = true) :
    (CalculateFare d1).TotalFare.lessThanOrEqual (CalculateFare d2).TotalFare
      = true := by
  rw [Decimal.lessThanOrEqual_iff] at h ⊢
  rw [(CalculateFare_val d1).2.2.2, (CalculateFare_val d2).2.2.2]
  exact totalFareVal_mono h

/-- Witness for C2 at distances 1500 and 12000. -/
theorem C2_calculateFare_monotone_witness :
    (CalculateFare (Decimal.newFromInt 1500)).TotalFare.lessThanOrEqual
      (CalculateFare (Decimal.newFromInt 12000)).TotalFare = true :=
  C2_calculateFare_monotone _ _ (by decide)

/-- C3: for every distance value ≤ 0 all fare components of `CalculateFare`
are zero-valued (TotalFare = 0), and `CalculateFare(-5)` produces exactly the
same fare components as `CalculateFare(0)` (negative distances are clamped to
the zero result). -/
theorem C3_nonpositive_clamped :
    (∀ d : Decimal, d.val ≤ 0 →
      (CalculateFare d).BaseFareAmount.val = 0 ∧
      (CalculateFare d).StandardFareAmount.val = 0 ∧
      (CalculateFare d).ExtendedFareAmount.val = 0 ∧
      (CalculateFare d).TotalFare.val = 0) ∧
    ((CalculateFare (Decimal.newFromInt (-5))).BaseFareAmount
        = (CalculateFare (Decimal.newFromInt 0)).BaseFareAmount ∧
      (CalculateFare (Decimal.newFromInt (-5))).StandardFareAmount
        = (CalculateFare (Decimal.newFromInt 0)).StandardFareAmount ∧
      (CalculateFare (Decimal.newFromInt (-5))).ExtendedFareAmount
        = (CalculateFare (Decimal.newFromInt 0)).ExtendedFareAmount ∧
      (CalculateFare (Decimal.newFromInt (-5))).TotalFare
        = (CalculateFare (Decimal.newFromInt 0)).TotalFare) := by
  constructor
  · intro d hd
    obtain ⟨hb, hs, he, ht⟩ := CalculateFare_val d
    have h1 : baseFareVal d.val = 0 := by
      unfold baseFareVal
      rw [if_pos hd]
    have h2 : standardFareVal d.val = 0 := by
      unfold standardFareVal
      rw [if_neg (by linarith : ¬ (1000:ℚ) < d.val)]
    have h3 : extendedFareVal d.val = 0 := by
      unfold extendedFareVal
      rw [if_neg (by linarith : ¬ (10000:ℚ) < d.val)]
    have h4 : totalFareVal d.val = 0 := by
      unfold totalFareVal
      rw [h1, h2, h3]
      norm_num
    exact ⟨hb.trans h1, hs.trans h2, he.trans h3, ht.trans h4⟩
  · exact ⟨by decide, by decide, by decide, by decide⟩

/-- Witness for C3 at distance -5. -/
theorem C3_nonpositive_clamped_witness :
    (CalculateFare (Decimal.newFromInt (-5))).BaseFareAmount.val = 0 ∧
    (CalculateFare (Decimal.newFromInt (-5))).StandardFareAmount.val = 0 ∧
    (CalculateFare (Decimal.newFromInt (-5))).ExtendedFareAmount.val = 0 ∧
    (CalculateFare (Decimal.newFromInt (-5))).TotalFare.val = 0 :=
  C3_nonpositive_clamped.1 (Decimal.newFromInt (-5))
    (by rw [Decimal.val_newFromInt]; norm_num)



lemma maxMinLoop_fst_val (l : List DistanceRecord) (mx mn : Decimal) :
    (maxMinLoop l (mx, mn)).1.val
      = (l.map (fun r => r.Distance.val)).foldl max mx.val := by
  induction l generalizing mx mn with
  | nil => rfl
  | cons r rest ih =>
    rw [List.map_cons, List.foldl_cons]
    show (maxMinLoop rest (_, _)).1.val = _
    rw [ih]
    congr 1
    by_cases h : r.Distance.greaterThan mx = true
    · rw [if_pos h, max_eq_right ((Decimal.greaterThan_iff _ _).mp h).le]
    · rw [if_neg h,
        max_eq_left (not_lt.mp (fun hc => h ((Decimal.greaterThan_iff _ _).mpr hc)))]

lemma maxMinLoop_snd_val (l : List DistanceRecord) (mx mn : Decimal) :
    (maxMinLoop l (mx, mn)).2.val
      = (l.map (fun r => r.Distance.val)).foldl min mn.val := by
  induction l generalizing mx mn with
  | nil => rfl
  | cons r rest ih =>
    rw [List.map_cons, List.foldl_cons]
    show (maxMinLoop rest (_, _)).2.val = _
    rw [ih]
    congr 1
    by_cases h : r.Distance.lessThan mn = true
    · rw [if_pos h, min_eq_right ((Decimal.lessThan_iff _ _).mp h).le]
    · rw [if_neg h,
        min_eq_left (not_lt.mp (fun hc => h ((Decimal.lessThan_iff _ _).mpr hc)))]

lemma le_foldl_max (l : List ℚ) (a : ℚ) : a ≤ l.foldl max a := by
  induction l generalizing a with
  | nil => exact le_refl a
  | cons b l ih => exact le_trans (le_max_left a b) (ih (max a b))

lemma foldl_min_le (l : List ℚ) (a : ℚ) : l.foldl min a ≤ a := by
  induction l generalizing a with
  | nil => exact le_refl a
  | cons b l ih => exact le_trans (ih (min a b)) (min_le_left a b)

lemma foldl_max_mem (l : List ℚ) (a : ℚ) : l.foldl max a = a ∨ l.foldl max a ∈ l := by
  induction l generalizing a with
  | nil => exact Or.inl rfl
  | cons b l ih =>
    rcases ih (max a b) with h | h
    · rcases max_choice a b with hm | hm
      · exact Or.inl (by rw [List.foldl_cons, h, hm])
      · refine Or.inr ?_
        rw [List.foldl_cons, h, hm]
        exact List.mem_cons_self b l
    · exact Or.inr (List.mem_cons_of_mem b h)

lemma foldl_min_mem (l : List ℚ) (a : ℚ) : l.foldl min a = a ∨ l.foldl min a ∈ l := by
  induction l generalizing a with
  | nil => exact Or.inl rfl
  | cons b l ih =>
    rcases ih (min a b) with h | h
    · rcases min_choice a b with hm | hm
      · exact Or.inl (by rw [List.foldl_cons, h, hm])
      · refine Or.inr ?_
        rw [List.foldl_cons, h, hm]
        exact List.mem_cons_self b l
    · exact Or.inr (List.mem_cons_of_mem b h)

lemma mem_le_foldl_max (l : List ℚ) (a : ℚ) : ∀ x ∈ l, x ≤ l.foldl max a := by
  induction l generalizing a with
  | nil => intro x hx; exact absurd hx (List.not_mem_nil x)
  | cons b l ih =>
    intro x hx
    rcases List.mem_cons.mp hx with h | h
    · rw [h, List.foldl_cons]
      exact le_trans (le_max_right a b) (le_foldl_max l (max a b))
    · rw [List.foldl_cons]
      exact ih (max a b) x h

lemma foldl_min_le_mem (l : List ℚ) (a : ℚ) : ∀ x ∈ l, l.foldl min a ≤ x := by
  induction l generalizing a with
  | nil => intro x hx; exact absurd hx (List.not_mem_nil x)
  | cons b l ih =>
    intro x hx
    rcases List.mem_cons.mp hx with h | h
    · rw [h, List.foldl_cons]
      exact le_trans (foldl_min_le l (min a b)) (min_le_right a b)
    · rw [List.foldl_cons]
      exact ih (min a b) x h

/-- Field values of `CalculateFromRecords` on a non-empty list, as functions
of the max-minus-min of the distance values. -/
lemma CalculateFromRecords_val (r0 : DistanceRecord) (rest : List DistanceRecord) :
    (CalculateFromRecords (r0 :: rest)).BaseFare.val
        = baseFareVal ((rest.map (fun r => r.Distance.val)).foldl max r0.Distance.val
            - (rest.map (fun r => r.Distance.val)).foldl min r0.Distance.val) ∧
    (CalculateFromRecords (r0 :: rest)).DistanceFare.val
        = standardFareVal ((rest.map (fun r => r.Distance.val)).foldl max r0.Distance.val
            - (rest.map (fun r => r.Distance.val)).foldl min r0.Distance.val)
          + extendedFareVal ((rest.map (fun r => r.Distance.val)).foldl max r0.Distance.val
            - (rest.map (fun r => r.Distance.val)).foldl min r0.Distance.val) ∧
    (CalculateFromRecords (r0 :: rest)).TimeFare.val = 0 ∧
    (CalculateFromRecords (r0 :: rest)).TotalFare.val
        = totalFareVal ((rest.map (fun r => r.Distance.val)).foldl max r0.Distance.val
            - (rest.map (fun r => r.Distance.val)).foldl min r0.Distance.val) := by
  have htd : ((maxMinLoop rest (r0.Distance, r0.Distance)).1.sub
      (maxMinLoop rest (r0.Distance, r0.Distance)).2).val
        = (rest.map (fun r => r.Distance.val)).foldl max r0.Distance.val
          - (rest.map (fun r => r.Distance.val)).foldl min r0.Distance.val := by
    rw [Decimal.val_sub, maxMinLoop_fst_val, maxMinLoop_snd_val]
  obtain ⟨hb, hs, he, ht⟩ := CalculateFare_val
    ((maxMinLoop rest (r0.Distance, r0.Distance)).1.sub
      (maxMinLoop rest (r0.Distance, r0.Distance)).2)
  rw [htd] at hb hs he ht
  exact ⟨hb, by rw [show (CalculateFromRecords (r0 :: rest)).DistanceFare
      = ((CalculateFare ((maxMinLoop rest (r0.Distance, r0.Distance)).1.sub
          (maxMinLoop rest (r0.Distance, r0.Distance)).2)).StandardFareAmount.add
        (CalculateFare ((maxMinLoop rest (r0.Distance, r0.Distance)).1.sub
          (maxMinLoop rest (r0.Distance, r0.Distance)).2)).ExtendedFareAmount) from rfl,
      Decimal.val_add, hs, he], Decimal.val_zero, ht⟩



lemma foldl_max_le_of_forall_mem {a1 a2 : ℚ} {l1 l2 : List ℚ}
    (hsub : ∀ x ∈ a1 :: l1, x ∈ a2 :: l2) : l1.foldl max a1 ≤ l2.foldl max a2 := by
  rcases foldl_max_mem l1 a1 with h | h
  · rw [h]
    rcases List.mem_cons.mp (hsub a1 (List.mem_cons_self a1 l1)) with h' | h'
    · rw [h']
      exact le_foldl_max l2 a2
    · exact mem_le_foldl_max l2 a2 a1 h'
  · rcases List.mem_cons.mp (hsub _ (List.mem_cons_of_mem a1 h)) with h' | h'
    · rw [h']
      exact le_foldl_max l2 a2
    · exact mem_le_foldl_max l2 a2 _ h'

lemma foldl_min_ge_of_forall_mem {a1 a2 : ℚ} {l1 l2 : List ℚ}
    (hsub : ∀ x ∈ a1 :: l1, x ∈ a2 :: l2) : l2.foldl min a2 ≤ l1.foldl min a1 := by
  rcases foldl_min_mem l1 a1 with h | h
  · rw [h]
    rcases List.mem_cons.mp (hsub a1 (List.mem_cons_self a1 l1)) with h' | h'
    · rw [h']
      exact foldl_min_le l2 a2
    · exact foldl_min_le_mem l2 a2 a1 h'
  · rcases List.mem_cons.mp (hsub _ (List.mem_cons_of_mem a1 h)) with h' | h'
    · rw [h']
      exact foldl_min_le l2 a2
    · exact foldl_min_le_mem l2 a2 _ h'

lemma foldl_max_perm {a1 a2 : ℚ} {l1 l2 : List ℚ} (p : (a1 :: l1).Perm (a2 :: l2)) :
    l1.foldl max a1 = l2.foldl max a2 :=
  le_antisymm (foldl_max_le_of_forall_mem fun _ hx => p.mem_iff.mp hx)
    (foldl_max_le_of_forall_mem fun _ hx => p.symm.mem_iff.mp hx)

lemma foldl_min_perm {a1 a2 : ℚ} {l1 l2 : List ℚ} (p : (a1 :: l1).Perm (a2 :: l2)) :
    l1.foldl min a1 = l2.foldl min a2 :=
  le_antisymm (foldl_min_ge_of_forall_mem fun _ hx => p.symm.mem_iff.mp hx)
    (foldl_min_ge_of_forall_mem fun _ hx => p.mem_iff.mp hx)

/-- C4: `CalculateFromRecords` never fails: on the empty list it returns the
all-zero result; on a non-empty list each fare field carries the value of the
corresponding field of `CalculateFare` applied to (max of the records'
distances minus min of the records' distances); consequently its result is
invariant (at the level of decimal values) under any permutation of the input
list — an extremal reduction, not first-minus-last. -/
theorem C4_calculateFromRecords_extremal :
    (CalculateFromRecords []
       = { BaseFare := Decimal.zero, DistanceFare := Decimal.zero,
           TimeFare := Decimal.zero, TotalFare := Decimal.zero }) ∧
    (∀ (r0 : DistanceRecord) (rest : List DistanceRecord) (dd : Decimal),
      dd.val = (rest.map (fun r => r.Distance.val)).foldl max r0.Distance.val
        - (rest.map (fun r => r.Distance.val)).foldl min r0.Distance.val →
      (CalculateFromRecords (r0 :: rest)).BaseFare.val
          = (CalculateFare dd).BaseFareAmount.val ∧
      (CalculateFromRecords (r0 :: rest)).DistanceFare.val
          = (CalculateFare dd).StandardFareAmount.val
            + (CalculateFare dd).ExtendedFareAmount.val ∧
      (CalculateFromRecords (r0 :: rest)).TimeFare.val = 0 ∧
      (CalculateFromRecords (r0 :: rest)).TotalFare.val
          = (CalculateFare dd).TotalFare.val) ∧
    (∀ l1 l2 : List DistanceRecord, l1.Perm l2 →
      (CalculateFromRecords l1).BaseFare.val
          = (CalculateFromRecords l2).BaseFare.val ∧
      (CalculateFromRecords l1).DistanceFare.val
          = (CalculateFromRecords l2).DistanceFare.val ∧
      (CalculateFromRecords l1).TimeFare.val
          = (CalculateFromRecords l2).TimeFare.val ∧
      (CalculateFromRecords l1).TotalFare.val
          = (CalculateFromRecords l2).TotalFare.val) := by
  refine ⟨rfl, ?_, ?_⟩
  · intro r0 rest dd hdd
    obtain ⟨hb, hs, htm, ht⟩ := CalculateFromRecords_val r0 rest
    obtain ⟨hb2, hs2, he2, ht2⟩ := CalculateFare_val dd
    rw [hdd] at hb2 hs2 he2 ht2
    exact ⟨by rw [hb, hb2], by rw [hs, hs2, he2], htm, by rw [ht, ht2]⟩
  · intro l1 l2 p
    cases l1 with
    | nil =>
      have h2 := p.symm.eq_nil
      rw [h2]
      exact ⟨rfl, rfl, rfl, rfl⟩
    | cons r0 t1 =>
      cases l2 with
      | nil =>
        have := p.eq_nil
        simp at this
      | cons s0 t2 =>
        have pm := p.map (fun r => r.Distance.val)
        rw [List.map_cons, List.map_cons] at pm
        have hM := foldl_max_perm pm
        have hm := foldl_min_perm pm
        obtain ⟨hb1, hs1, htm1, ht1⟩ := CalculateFromRecords_val r0 t1
        obtain ⟨hb2, hs2, htm2, ht2⟩ := CalculateFromRecords_val s0 t2
        rw [hM, hm] at hb1 hs1 ht1
        exact ⟨hb1.trans hb2.symm, hs1.trans hs2.symm, htm1.trans htm2.symm,
          ht1.trans ht2.symm⟩

/-- Witness for C4: the extremal formula instantiated on a one-record list. -/
theorem C4_calculateFromRecords_extremal_witness :
    (CalculateFromRecords [⟨1, Decimal.newFromInt 5⟩]).BaseFare.val
        = (CalculateFare (Decimal.newFromInt 0)).BaseFareAmount.val ∧
    (CalculateFromRecords [⟨1, Decimal.newFromInt 5⟩]).DistanceFare.val
        = (CalculateFare (Decimal.newFromInt 0)).StandardFareAmount.val
          + (CalculateFare (Decimal.newFromInt 0)).ExtendedFareAmount.val ∧
    (CalculateFromRecords [⟨1, Decimal.newFromInt 5⟩]).TimeFare.val = 0 ∧
    (CalculateFromRecords [⟨1, Decimal.newFromInt 5⟩]).TotalFare.val
        = (CalculateFare (Decimal.newFromInt 0)).TotalFare.val :=
  C4_calculateFromRecords_extremal.2.1 ⟨1, Decimal.newFromInt 5⟩ []
    (Decimal.newFromInt 0) (by simp [Decimal.val_newFromInt])



lemma validateEach_eq_none (i : Nat) (l : List DistanceRecord)
    (h : ∀ r ∈ l, ValidateRecord r = none) : validateEach i l = none := by
  induction l generalizing i with
  | nil => rfl
  | cons r t ih =>
    unfold validateEach
    rw [h r (List.mem_cons_self r t)]
    exact ih (i + 1) (fun r hr => h r (List.mem_cons_of_mem _ hr))

lemma validatePairs_eq_firstPairViolation (i : Nat) (prev : DistanceRecord)
    (l : List DistanceRecord) :
    validatePairs NewValidator i prev l
      = firstPairViolation NewValidator.MaxInterval i prev l := by
  induction l generalizing i prev with
  | nil => rfl
  | cons cur rest ih =>
    unfold validatePairs firstPairViolation validateTimingConstraints
      validateMileageProgression
    dsimp only
    by_cases h1 : cur.Timestamp - prev.Timestamp < 0
    · rw [if_pos h1, if_pos (Or.inl h1)]
    · rw [if_neg h1,
        if_neg (by simp [NewValidator] : ¬ (cur.Timestamp - prev.Timestamp = 0
          ∧ NewValidator.AllowIdenticalTimestamps = false))]
      by_cases h2 : NewValidator.MaxInterval < cur.Timestamp - prev.Timestamp
      · rw [if_pos h2, if_pos (Or.inr h2)]
      · rw [if_neg h2, if_neg (by tauto : ¬ (cur.Timestamp - prev.Timestamp < 0
          ∨ NewValidator.MaxInterval < cur.Timestamp - prev.Timestamp))]
        dsimp only
        by_cases h3 : (cur.Distance.sub prev.Distance).isNegative = true
        · rw [if_pos h3,
            if_pos (by rw [← Decimal.val_sub]; exact (Decimal.isNegative_iff _).mp h3)]
        · rw [if_neg h3,
            if_neg (by simp [NewValidator] : ¬ ((cur.Distance.sub prev.Distance).isZero = true
              ∧ NewValidator.AllowIdenticalMileage = false)),
            if_neg (fun hc => h3 ((Decimal.isNegative_iff _).mpr
              (by rw [Decimal.val_sub]; exact hc)))]
          exact ih (i + 1) cur

/-- C5: on a list of two or more individually valid records, the default
validator's `ValidateSequence` is exactly the first-violating-pair scan of
the claim: walking consecutive pairs in order, a negative timestamp delta or
a delta exceeding `MaxInterval` (default 5 minutes) fails with the timing
error, a negative distance delta with the mileage error, each carrying the
index of the current (later) record of the violating pair. -/
theorem C5_validateSequence_first_violation (a b : DistanceRecord)
    (rest : List DistanceRecord)
    (hvalid : ∀ r ∈ a :: b :: rest, ValidateRecord r = none) :
    ValidateSequence NewValidator (a :: b :: rest)
      = firstPairViolation NewValidator.MaxInterval 1 a (b :: rest) := by
  show (match validateEach 0 (a :: b :: rest) with
    | some e => some e
    | none => validatePairs NewValidator 1 a (b :: rest)) = _
  rw [validateEach_eq_none 0 _ hvalid]
  exact validatePairs_eq_firstPairViolation 1 a (b :: rest)

/-- Witness for C5: a pair with decreasing timestamps. -/
theorem C5_validateSequence_first_violation_witness :
    ValidateSequence NewValidator
        [⟨1000, Decimal.newFromInt 0⟩, ⟨500, Decimal.newFromInt 7⟩]
      = firstPairViolation NewValidator.MaxInterval 1 ⟨1000, Decimal.newFromInt 0⟩
          [⟨500, Decimal.newFromInt 7⟩] :=
  C5_validateSequence_first_violation ⟨1000, Decimal.newFromInt 0⟩
    ⟨500, Decimal.newFromInt 7⟩ [] (by decide)

/-- C6: `ValidateSequence` on the empty list fails with the sequence error;
on a single-record list it is exactly `ValidateRecord`, which fails with a
format-class error when the timestamp is the zero value and with a
constraint-class error when the distance is negative. -/
theorem C6_empty_and_singleton :
    (ValidateSequence NewValidator [] = some SequenceError) ∧
    (∀ r : DistanceRecord, ValidateSequence NewValidator [r] = ValidateRecord r) ∧
    (∀ r : DistanceRecord, r.Timestamp = 0 →
      ValidateSequence NewValidator [r] = some (FormatError 0 "timestamp")) ∧
    (∀ r : DistanceRecord, r.Timestamp ≠ 0 → r.Distance.isNegative = true →
      ValidateSequence NewValidator [r] = some (ConstraintError 0 "distance")) := by
  refine ⟨rfl, fun r => rfl, ?_, ?_⟩
  · intro r h
    show ValidateRecord r = _
    unfold ValidateRecord
    rw [if_pos h]
  · intro r h hneg
    show ValidateRecord r = _
    unfold ValidateRecord
    rw [if_neg h, if_pos hneg]

/-- Witness for C6: a zero timestamp yields the format-class failure. -/
theorem C6_empty_and_singleton_witness :
    ValidateSequence NewValidator [⟨0, Decimal.newFromInt 1⟩]
      = some (FormatError 0 "timestamp") :=
  C6_empty_and_singleton.2.2.1 ⟨0, Decimal.newFromInt 1⟩ rfl

/-- C10: on any non-empty record list whose records all carry the same
distance value — in particular on any single-record list, which passes
sequence validation exactly when the record is valid — `CalculateFromRecords`
returns zero for `TotalFare`, `BaseFare`, `DistanceFare` and `TimeFare`,
because the max-minus-min travel distance is 0 and the zero-distance branch
of `CalculateFare` produces no base fare. -/
theorem C10_constant_distance_zero_fare :
    (∀ (r0 : DistanceRecord) (rest : List DistanceRecord),
      (∀ r ∈ r0 :: rest, r.Distance.val = r0.Distance.val) →
      (CalculateFromRecords (r0 :: rest)).BaseFare.val = 0 ∧
      (CalculateFromRecords (r0 :: rest)).DistanceFare.val = 0 ∧
      (CalculateFromRecords (r0 :: rest)).TimeFare.val = 0 ∧
      (CalculateFromRecords (r0 :: rest)).TotalFare.val = 0) ∧
    (∀ r : DistanceRecord, ValidateRecord r = none →
      ValidateSequence NewValidator [r] = none) := by
  constructor
  · intro r0 rest hsame
    obtain ⟨hb, hs, htm, ht⟩ := CalculateFromRecords_val r0 rest
    have hM : (rest.map (fun r => r.Distance.val)).foldl max r0.Distance.val
        = r0.Distance.val := by
      rcases foldl_max_mem (rest.map fun r => r.Distance.val) r0.Distance.val with h | h
      · exact h
      · obtain ⟨r, hr, hrv⟩ := List.mem_map.mp h
        rw [← hrv]
        exact hsame r (List.mem_cons_of_mem _ hr)
    have hm : (rest.map (fun r => r.Distance.val)).foldl min r0.Distance.val
        = r0.Distance.val := by
      rcases foldl_min_mem (rest.map fun r => r.Distance.val) r0.Distance.val with h | h
      · exact h
      · obtain ⟨r, hr, hrv⟩ := List.mem_map.mp h
        rw [← hrv]
        exact hsame r (List.mem_cons_of_mem _ hr)
    rw [hM, hm, sub_self] at hb hs ht
    refine ⟨?_, ?_, htm, ?_⟩
    · rw [hb]
      unfold baseFareVal
      rw [if_pos (le_refl (0:ℚ))]
    · rw [hs]
      unfold standardFareVal extendedFareVal
      rw [if_neg (by norm_num : ¬ (1000:ℚ) < 0), if_neg (by norm_num : ¬ (10000:ℚ) < 0)]
      norm_num
    · rw [ht]
      unfold totalFareVal baseFareVal standardFareVal extendedFareVal
      rw [if_pos (le_refl (0:ℚ)), if_neg (by norm_num : ¬ (1000:ℚ) < 0),
        if_neg (by norm_num : ¬ (10000:ℚ) < 0)]
      norm_num
  · intro r h
    show ValidateRecord r = none
    exact h

/-- Witness for C10 on a one-record list. -/
theorem C10_constant_distance_zero_fare_witness :
    (CalculateFromRecords [⟨1, Decimal.newFromInt 5⟩]).BaseFare.val = 0 ∧
    (CalculateFromRecords [⟨1, Decimal.newFromInt 5⟩]).DistanceFare.val = 0 ∧
    (CalculateFromRecords [⟨1, Decimal.newFromInt 5⟩]).TimeFare.val = 0 ∧
    (CalculateFromRecords [⟨1, Decimal.newFromInt 5⟩]).TotalFare.val = 0 :=
  C10_constant_distance_zero_fare.1 ⟨1, Decimal.newFromInt 5⟩ []
    (fun r hr => by rw [List.mem_singleton.mp hr])



lemma validateTimestampFormat_type (ts : List Char) (e : ParsingError)
    (h : validateTimestampFormat ts = some e) : e.errType = .timestamp := by
  unfold validateTimestampFormat at h
  repeat' split at h
  all_goals first
  | (injection h with h; rw [← h])
  | cases h

lemma parseTimestamp_type (ts : List Char) (e : ParsingError)
    (h : parseTimestamp ts = .error e) : e.errType = .timestamp := by
  unfold parseTimestamp at h
  repeat' split at h
  all_goals first
  | (injection h with h; rw [← h])
  | cases h

lemma parseTimestampWithValidation_type (ts : List Char) (e : ParsingError)
    (h : parseTimestampWithValidation ts = .error e) : e.errType = .timestamp := by
  unfold parseTimestampWithValidation at h
  split at h
  · next e' heq =>
    injection h with h
    rw [← h]
    exact validateTimestampFormat_type ts e' heq
  · exact parseTimestamp_type ts e h

lemma parseDistance_type (ds : List Char) (e : ParsingError)
    (h : parseDistance ds = .error e) : e.errType = .distance := by
  unfold parseDistance at h
  repeat' split at h
  all_goals first
  | (injection h with h; rw [← h])
  | cases h

lemma parseDistanceWithValidation_type (ds : List Char) (e : ParsingError)
    (h : parseDistanceWithValidation ds = .error e) : e.errType = .distance := by
  unfold parseDistanceWithValidation at h
  split at h
  · next e' heq =>
    injection h with h
    rw [← h]
    unfold validateDistanceFormat at heq
    repeat' split at heq
    all_goals first
    | (injection heq with heq; rw [← heq])
    | cases heq
  · exact parseDistance_type ds e h

/-- C7: `parseLine` classifies failures in the spec's
first-failing-check-wins order: a line that fails the whole-line structural
match (after trimming) yields the format error; a structurally matching line
whose timestamp fails the structural checks or the semantic parse yields the
timestamp error (e.g. `25:34:56.789 12345678.5`); a structurally matching
line with a parsed timestamp whose distance fails its pattern, decimal parse
or non-negativity yields the distance error. -/
theorem C7_parseLine_classification :
    (∀ l : List Char, lineMatch (trimSpace l) = none →
      parseLine l 0 = .error ⟨.format, 0⟩) ∧
    (∀ (l ts ds : List Char) (e : ParsingError),
      lineMatch (trimSpace l) = some (ts, ds) →
      parseTimestampWithValidation ts = .error e →
      parseLine l 0 = .error ⟨.timestamp, 0⟩) ∧
    (∀ (l ts ds : List Char) (t : Int) (e : ParsingError),
      lineMatch (trimSpace l) = some (ts, ds) →
      parseTimestampWithValidation ts = .ok t →
      parseDistanceWithValidation ds = .error e →
      parseLine l 0 = .error ⟨.distance, 0⟩) ∧
    parseLine ("25:34:56.789 12345678.5".toList) 0 = .error ⟨.timestamp, 0⟩ := by
  refine ⟨?_, ?_, ?_, by rfl⟩
  · intro l h
    unfold parseLine
    by_cases hb : trimSpace l = []
    · rw [if_pos hb]
    · rw [if_neg hb, h]
  · intro l ts ds e hm he
    unfold parseLine
    have hb : ¬ trimSpace l = [] := by
      intro hb
      rw [hb] at hm
      simp [lineMatch] at hm
    rw [if_neg hb, hm]
    dsimp only
    rw [he]
    have ht := parseTimestampWithValidation_type ts e he
    obtain ⟨t, ln⟩ := e
    simp only at ht
    rw [ht]
  · intro l ts ds t e hm ht hd
    unfold parseLine
    have hb : ¬ trimSpace l = [] := by
      intro hb
      rw [hb] at hm
      simp [lineMatch] at hm
    rw [if_neg hb, hm]
    dsimp only
    rw [ht, hd]
    have hdt := parseDistanceWithValidation_type ds e hd
    obtain ⟨et, ln⟩ := e
    simp only at hdt
    rw [hdt]



/-- C8 counterexample: the syntactically valid literal `00000000.0` (leading
zeros are permitted by the distance grammar) parses successfully but
re-serialises as `0`, not as the original literal — parsing and
re-serialising is not the identity on every valid literal. -/
theorem C8_counterexample_leading_zeros :
    distanceShape ("00000000.0".toList) = true ∧
    distanceRoundTrip ("00000000.0".toList) = some ("0".toList) ∧
    ("0".toList : List Char) ≠ "00000000.0".toList := by
  refine ⟨by decide, by decide, by decide⟩



lemma isDigit_bounds (c : Char) (h : c.isDigit = true) :
    48 ≤ c.toNat ∧ c.toNat ≤ 57 := by
  simp [Char.isDigit] at h
  exact ⟨h.1, h.2⟩

lemma digitVal_lt_ten (c : Char) (h : c.isDigit = true) : digitVal c < 10 := by
  have := isDigit_bounds c h
  unfold digitVal
  omega

lemma ofNat_digitVal (c : Char) (h : c.isDigit = true) :
    Char.ofNat (48 + digitVal c) = c := by
  have hb := isDigit_bounds c h
  have : 48 + digitVal c = c.toNat := by
    unfold digitVal
    omega
  rw [this, Char.ofNat_toNat]

lemma digitVal_ne_zero (c : Char) (h : c.isDigit = true) (h0 : c ≠ '0') :
    digitVal c ≠ 0 := by
  have hb := isDigit_bounds c h
  intro hz
  apply h0
  have ht : c.toNat = 48 := by
    unfold digitVal at hz
    omega
  have := Char.ofNat_toNat c
  rw [ht] at this
  rw [← this]

lemma natToDigitsRev_eq (fuel n : Nat) (h : n ≤ fuel) :
    natToDigitsRev fuel n = Nat.digits 10 n := by
  induction fuel generalizing n with
  | zero =>
    have hn : n = 0 := Nat.le_zero.mp h
    rw [hn, Nat.digits_zero]
    rfl
  | succ f ih =>
    unfold natToDigitsRev
    by_cases hn : n = 0
    · rw [if_pos hn, hn, Nat.digits_zero]
    · rw [if_neg hn,
        Nat.digits_def' (by norm_num : (1:ℕ) < 10) (Nat.pos_of_ne_zero hn)]
      congr 1
      have hd := Nat.div_lt_self (Nat.pos_of_ne_zero hn) (by norm_num : 1 < 10)
      exact ih (n / 10) (by omega)

lemma charsToNat_aux (L : List Char) (a : Nat) :
    L.foldl (fun a c => 10 * a + digitVal c) a
      = a * 10 ^ L.length + Nat.ofDigits 10 ((L.map digitVal).reverse) := by
  induction L generalizing a with
  | nil => simp
  | cons c t ih =>
    rw [List.foldl_cons, ih (10 * a + digitVal c), List.map_cons, List.reverse_cons,
      Nat.ofDigits_append]
    simp only [Nat.ofDigits_singleton, List.length_reverse, List.length_map,
      List.length_cons]
    ring

lemma charsToNat_eq (L : List Char) :
    charsToNat L = Nat.ofDigits 10 ((L.map digitVal).reverse) := by
  have := charsToNat_aux L 0
  simpa [charsToNat] using this

lemma digits_charsToNat (L : List Char) (hall : ∀ c ∈ L, c.isDigit = true)
    (hne : L ≠ []) (hhead : L.head? ≠ some '0') :
    Nat.digits 10 (charsToNat L) = (L.map digitVal).reverse := by
  rw [charsToNat_eq]
  apply Nat.digits_ofDigits 10 (by norm_num)
  · intro d hd
    rw [List.mem_reverse] at hd
    obtain ⟨c, hc, hcv⟩ := List.mem_map.mp hd
    rw [← hcv]
    exact digitVal_lt_ten c (hall c hc)
  · intro hrev
    obtain ⟨c, L', hL⟩ : ∃ c L', L = c :: L' := by
      cases L with
      | nil => exact absurd rfl hne
      | cons c L' => exact ⟨c, L', rfl⟩
    have hlast : ((L.map digitVal).reverse).getLast hrev
        = digitVal c := by
      have h1 : ((L.map digitVal).reverse).getLast? = some (digitVal c) := by
        rw [List.getLast?_reverse, hL]
        rfl
      rw [List.getLast?_eq_getLast _ hrev] at h1
      injection h1
    rw [hlast]
    apply digitVal_ne_zero c
    · exact hall c (by rw [hL]; exact List.mem_cons_self c L')
    · intro hc0
      apply hhead
      rw [hL, hc0]
      rfl

lemma renderNat_charsToNat (L : List Char) (hall : ∀ c ∈ L, c.isDigit = true)
    (hne : L ≠ []) (hhead : L.head? ≠ some '0') :
    renderNat (charsToNat L) = L := by
  unfold renderNat
  rw [natToDigitsRev_eq _ _ (le_refl _), digits_charsToNat L hall hne hhead,
    List.reverse_reverse, List.map_map]
  conv_rhs => rw [← List.map_id L]
  apply List.map_congr_left
  intro c hc
  show Char.ofNat (48 + digitVal c) = c
  exact ofNat_digitVal c (hall c hc)

lemma charsToNat_ne_zero (L : List Char) (hall : ∀ c ∈ L, c.isDigit = true)
    (hne : L ≠ []) (hhead : L.head? ≠ some '0') : charsToNat L ≠ 0 := by
  intro h0
  have := digits_charsToNat L hall hne hhead
  rw [h0, Nat.digits_zero] at this
  have : L.map digitVal = [] := by
    have := congrArg List.reverse this
    simpa using this
  rw [List.map_eq_nil_iff] at this
  exact hne this



lemma distanceShape_decomp (l : List Char) (h : distanceShape l = true) :
    ∃ ip frac : List Char, l = ip ++ '.' :: frac ∧ l.takeWhile Char.isDigit = ip ∧
      8 ≤ ip.length ∧ frac ≠ [] ∧ frac.all Char.isDigit = true := by
  unfold distanceShape at h
  dsimp only at h
  rw [Bool.and_eq_true, decide_eq_true_iff] at h
  obtain ⟨h8, hm⟩ := h
  set w := l.takeWhile Char.isDigit with hw
  obtain ⟨t, ht⟩ := List.takeWhile_prefix (l := l) Char.isDigit
  rw [← hw] at ht
  split at hm
  case _ frac heq =>
    rw [← ht, List.drop_left] at heq
    refine ⟨w, frac, ?_, rfl, h8, ?_, ?_⟩
    · rw [← ht, heq]
    · rw [Bool.and_eq_true, decide_eq_true_iff] at hm
      exact hm.1
    · rw [Bool.and_eq_true] at hm
      exact hm.2
  case _ => exact absurd hm (by simp)

/-- C8 (amended): a distance literal that matches `distancePattern` and has
neither a leading zero digit nor a trailing zero digit parses via
`parseDistance` and re-serialises (with `shopspring`'s `String`) to exactly
the original literal.  (Without those two side conditions the round trip can
differ: leading integer zeros and trailing fractional zeros are not
preserved.) -/
theorem C8_distance_literal_round_trip (l : List Char)
    (hshape : distanceShape l = true)
    (hhead : l.head? ≠ some '0')
    (hlast : l.getLast? ≠ some '0') :
    distanceRoundTrip l = some l := by
  obtain ⟨ip, frac, hl, htw, h8, hfne, hfd⟩ := distanceShape_decomp l hshape
  have hipd : ∀ c ∈ ip, c.isDigit = true := by
    intro c hc
    rw [← htw] at hc
    exact List.mem_takeWhile_imp hc
  have hfd' : ∀ c ∈ frac, c.isDigit = true := List.all_eq_true.mp hfd
  obtain ⟨c0, ip', hip0⟩ : ∃ c0 ip', ip = c0 :: ip' := by
    cases hip : ip with
    | nil => rw [hip] at h8; simp at h8
    | cons a t => exact ⟨a, t, rfl⟩
  have hc0d : c0.isDigit = true := hipd c0 (by rw [hip0]; exact List.mem_cons_self c0 ip')
  have hc0 : l.head? = some c0 := by rw [hl, hip0]; rfl
  have hns1 : ¬ l.head? = some '-' := by
    rw [hc0]
    intro hcon
    injection hcon with hcon
    rw [hcon] at hc0d
    exact absurd hc0d (by decide)
  have hns2 : ¬ l.head? = some '+' := by
    rw [hc0]
    intro hcon
    injection hcon with hcon
    rw [hcon] at hc0d
    exact absurd hc0d (by decide)
  have hdrop : l.drop (l.takeWhile Char.isDigit).length = '.' :: frac := by
    rw [htw]
    conv_lhs => rw [hl]
    exact List.drop_left ip ('.' :: frac)
  have hcond : (decide (frac ≠ []) && frac.all Char.isDigit) = true := by
    rw [Bool.and_eq_true, decide_eq_true_iff]
    exact ⟨hfne, hfd⟩
  have hparse : goNewFromString l
      = some ⟨(charsToNat (ip ++ frac) : Int), -(frac.length : Int)⟩ := by
    unfold goNewFromString
    rw [if_neg hns1, if_neg hns2]
    dsimp only
    rw [hdrop]
    split
    case h_1 heq => exact absurd heq (by simp)
    case h_2 frac1 heq =>
      injection heq with h1 h2
      subst h2
      rw [if_pos hcond, htw]
      simp
    case h_3 hno => exact absurd rfl (hno frac)
  have hlne : l ≠ [] := by rw [hl]; simp
  have hnneg :
      ¬ (Decimal.isNegative ⟨(charsToNat (ip ++ frac) : Int), -(frac.length : Int)⟩
        = true) := by
    unfold Decimal.isNegative
    simp
  have hpd : parseDistance l
      = .ok ⟨(charsToNat (ip ++ frac) : Int), -(frac.length : Int)⟩ := by
    unfold parseDistance
    rw [if_neg hlne, hparse]
    dsimp only
    rw [if_neg hnneg]
  have hifd : ∀ c ∈ ip ++ frac, c.isDigit = true := by
    intro c hc
    rcases List.mem_append.mp hc with hc | hc
    · exact hipd c hc
    · exact hfd' c hc
  have hifne : (ip ++ frac) ≠ [] := by
    rw [hip0]
    simp
  have hifhead : (ip ++ frac).head? ≠ some '0' := by
    rw [hip0]
    intro hcon
    apply hhead
    rw [hc0]
    injection hcon with hcon
    rw [hcon]
  have hnz : charsToNat (ip ++ frac) ≠ 0 := charsToNat_ne_zero _ hifd hifne hifhead
  have hrender : renderNat (charsToNat (ip ++ frac)) = ip ++ frac :=
    renderNat_charsToNat _ hifd hifne hifhead
  have hfposlen : 0 < frac.length := List.length_pos.mpr hfne
  have hflast : frac.getLast? ≠ some '0' := by
    intro hcon
    apply hlast
    rw [hl]
    cases hfc : frac with
    | nil => exact absurd hfc hfne
    | cons f ft =>
      rw [List.getLast?_append, List.getLast?_cons_cons]
      rw [hfc] at hcon
      rw [hcon]
      rfl
  have hexp : ¬ ((0:Int) ≤ -(frac.length : Int)) := by omega
  have hnabs : ((charsToNat (ip ++ frac) : Int)).natAbs = charsToNat (ip ++ frac) :=
    Int.natAbs_ofNat _
  have hdc : decimalToChars ⟨(charsToNat (ip ++ frac) : Int), -(frac.length : Int)⟩
      = l := by
    unfold decimalToChars
    rw [if_neg hexp]
    dsimp only
    rw [hnabs, if_neg hnz, hrender]
    rw [show ((-(-(frac.length : Int))).toNat) = frac.length by omega]
    rw [if_pos (show frac.length < (ip ++ frac).length by
      rw [List.length_append]; omega)]
    rw [show (ip ++ frac).length - frac.length = ip.length by
      rw [List.length_append]; omega]
    rw [List.take_left, List.drop_left]
    dsimp only
    have hdw : frac.reverse.dropWhile (fun c => c == '0') = frac.reverse := by
      cases hrev : frac.reverse with
      | nil => rfl
      | cons a t =>
        rw [List.dropWhile_cons]
        have ha : frac.getLast? = some a := by
          rw [← List.head?_reverse, hrev]
          rfl
        rw [if_neg (by simp; intro hcon; exact hflast (by rw [ha, hcon]))]
    rw [hdw, List.reverse_reverse]
    rw [if_neg hfne]
    rw [if_neg (not_lt.mpr (Int.natCast_nonneg _))]
    rw [List.nil_append, ← hl]
  unfold distanceRoundTrip
  rw [hpd]
  dsimp only
  rw [hdc]

/-- C8 witness: the literal `12345678.5` round-trips to itself. -/
theorem C8_distance_literal_round_trip_witness :
    distanceShape ("12345678.5".toList) = true ∧
    ("12345678.5".toList).head? ≠ some '0' ∧
    ("12345678.5".toList).getLast? ≠ some '0' ∧
    distanceRoundTrip ("12345678.5".toList) = some ("12345678.5".toList) :=
  ⟨by decide, by decide, by decide,
    C8_distance_literal_round_trip _ (by decide) (by decide) (by decide)⟩



/-- C7 witness: a structurally mismatched line is a format error, and a
structurally matching line with hour 25 is a timestamp error. -/
theorem C7_parseLine_classification_witness :
    parseLine ("nonsense".toList) 0 = .error ⟨.format, 0⟩ ∧
    parseLine ("25:34:56.789 12345678.5".toList) 0 = .error ⟨.timestamp, 0⟩ :=
  ⟨C7_parseLine_classification.1 ("nonsense".toList) (by rfl),
   C7_parseLine_classification.2.1 ("25:34:56.789 12345678.5".toList)
     ("25:34:56.789".toList) ("12345678.5".toList) ⟨.timestamp, 0⟩
     (by rfl) (by rfl)⟩



/-- C9 counterexample: the error-kind-to-exit-code mapping is not injective:
timing and mileage errors both exit with code 2 (and format, timestamp,
distance and constraint errors all exit with code 1), so callers cannot
distinguish every kind by exit code. -/
theorem C9_counterexample_mileage_timing :
    kindExitCode .timing = kindExitCode .mileage ∧
    SpecErrorKind.timing ≠ SpecErrorKind.mileage ∧
    kindExitCode .formatParse = kindExitCode .constraint ∧
    SpecErrorKind.formatParse ≠ SpecErrorKind.constraint ∧
    ¬ Function.Injective kindExitCode := by
  refine ⟨rfl, by decide, rfl, by decide, ?_⟩
  intro hinj
  exact absurd (hinj (show kindExitCode .timing = kindExitCode .mileage from rfl))
    (by decide)

/-- C9 (amended): the exit-code mapping is stable — it depends only on the
error kind — and is given by the fixed table: format, timestamp, distance and
constraint errors exit 1, timing and mileage errors exit 2, sequence errors
exit 3, and IO errors exit 5; it is not injective. -/
theorem C9_exit_code_mapping :
    (∀ v : ValidationError, categorizeError (.validation v) =
      match v.errType with
      | .timing => 2
      | .format => 1
      | .mileage => 2
      | .sequence => 3
      | .constraint => 1) ∧
    (∀ p : ParsingError, categorizeError (.parsing p) =
      match p.errType with
      | .format => 1
      | .timestamp => 1
      | .distance => 1
      | .io => 5) ∧
    kindExitCode .formatParse = 1 ∧ kindExitCode .timestampParse = 1 ∧
    kindExitCode .distanceParse = 1 ∧ kindExitCode .ioParse = 5 ∧
    kindExitCode .timing = 2 ∧ kindExitCode .mileage = 2 ∧
    kindExitCode .sequence = 3 ∧ kindExitCode .constraint = 1 := by
  refine ⟨?_, ?_, rfl, rfl, rfl, rfl, rfl, rfl, rfl, rfl⟩
  · intro v
    obtain ⟨t, i, f⟩ := v
    cases t <;> rfl
  · intro p
    obtain ⟨t, ln⟩ := p
    cases t <;> rfl


end TaxiFare
